import Mathlib

/-! logstat: log-line parsing and statistics mapping

A shallow embedding of `logstat.go`: the three compiled patterns (`LogRegex`,
`NameRegex`, `UserAgentRegex`), `parseLogLine`, and `save`.

Go's `regexp` package returns, among the leftmost matches, the one a
backtracking search would find first.  The embedding is that backtracking
search: `Regex.run` lists the ways a pattern can match at a position, in
backtracking priority order, and the match reported is the head of the list.
Text is a sequence of Unicode code points (a Go string holding valid UTF-8).
-/

set_option autoImplicit false

namespace Logstat

/-! ## Regular expressions (the fragment of Go's syntax the patterns use) -/

/-- Syntax tree of a pattern. `group i r` is the i-th capturing group. -/
inductive Regex where
  | empty : Regex
  | bol : Regex
  | eol : Regex
  | lit (a : Char) : Regex
  | cls (ranges : List (Char × Char)) : Regex
  | dot : Regex
  | seq (r₁ r₂ : Regex) : Regex
  | alt (r₁ r₂ : Regex) : Regex
  | star (r : Regex) : Regex
  | group (i : Nat) (r : Regex) : Regex

/-- Captured texts, indexed by group number (index 0 is the whole match). -/
abbrev Caps := List (List Char)

/-- One way of matching: the text consumed, the text remaining, the captures. -/
abbrev Thread := List Char × List Char × Caps

/-- Membership in a bracket expression given as a list of inclusive ranges. -/
def inRanges (ranges : List (Char × Char)) (x : Char) : Bool :=
  ranges.any fun lh => decide (lh.1.toNat ≤ x.toNat) && decide (x.toNat ≤ lh.2.toNat)

/-- The character a `.` matches: anything but a newline (flag `s` is off). -/
def notNewline (x : Char) : Bool := !(x == '\n')

/-- Consume one character satisfying `p`. -/
def oneChar (p : Char → Bool) (s : List Char) (c : Caps) : List Thread :=
  match s with
  | [] => []
  | x :: xs => if p x then [([x], xs, c)] else []

/-- Greedy repetition of `step`: one more iteration is preferred to stopping.
An iteration that consumes nothing is dropped, so `fuel = s.length` iterations
are all that can happen. -/
def starLoop (step : Nat → List Char → Caps → List Thread) :
    Nat → Nat → List Char → Caps → List Thread
  | 0, _, s, c => [([], s, c)]
  | fuel + 1, pos, s, c =>
    ((step pos s c).flatMap fun t₁ =>
      if t₁.1.isEmpty then []
      else (starLoop step fuel (pos + t₁.1.length) t₁.2.1 t₁.2.2).map fun t₂ =>
        (t₁.1 ++ t₂.1, t₂.2.1, t₂.2.2)) ++ [([], s, c)]

/-- All ways `r` matches a prefix of `s`, where `s` starts at offset `pos` of
the text, in backtracking priority order. -/
def Regex.run : Regex → Nat → List Char → Caps → List Thread
  | .empty, _, s, c => [([], s, c)]
  | .bol, pos, s, c => if pos = 0 then [([], s, c)] else []
  | .eol, _, s, c => if s.isEmpty then [([], s, c)] else []
  | .lit a, _, s, c => oneChar (fun x => x == a) s c
  | .cls ranges, _, s, c => oneChar (inRanges ranges) s c
  | .dot, _, s, c => oneChar notNewline s c
  | .seq r₁ r₂, pos, s, c =>
    (run r₁ pos s c).flatMap fun t₁ =>
      (run r₂ (pos + t₁.1.length) t₁.2.1 t₁.2.2).map fun t₂ =>
        (t₁.1 ++ t₂.1, t₂.2.1, t₂.2.2)
  | .alt r₁ r₂, pos, s, c => run r₁ pos s c ++ run r₂ pos s c
  | .star r, pos, s, c => starLoop (run r) s.length pos s c
  | .group i r, pos, s, c =>
    (run r pos s c).map fun t => (t.1, t.2.1, t.2.2.set i t.1)

/-- Concatenation of a list of patterns. -/
def Regex.cat : List Regex → Regex
  | [] => .empty
  | r :: rs => .seq r (cat rs)

/-- A literal string. -/
def Regex.str (s : String) : Regex := Regex.cat (s.toList.map Regex.lit)

/-- Counted repetition `r{n}`. -/
def Regex.rep (n : Nat) (r : Regex) : Regex := Regex.cat (List.replicate n r)

/-- Greedy option `r?`. -/
def Regex.opt (r : Regex) : Regex := .alt r .empty

/-- Nested greedy options `(r(r(...)?)?)?`, `k` deep. -/
def Regex.optNest : Nat → Regex → Regex
  | 0, _ => .empty
  | k + 1, r => Regex.opt (.seq r (optNest k r))

/-- Bounded repetition `r{lo,hi}`: `lo` copies, then up to `hi - lo` more. -/
def Regex.repRange (lo hi : Nat) (r : Regex) : Regex :=
  .seq (Regex.rep lo r) (Regex.optNest (hi - lo) r)

/-- One or more, greedy: `r+`. -/
def Regex.plus (r : Regex) : Regex := .seq r (.star r)

/-- The class `[0-9]`. -/
def digit : Regex := .cls [('0', '9')]

/-- The Perl class `\s`, which in Go is `[\t\n\f\r ]`. -/
def space : Regex := .cls [('\t', '\n'), ('\x0c', '\r'), (' ', ' ')]

/-- A compiled pattern: its syntax tree and its number of capturing groups. -/
structure Regexp where
  re : Regex
  numSubexp : Nat

/-- Leftmost-first search: try each start offset in turn; at the first offset
where the pattern matches, report the highest-priority match. -/
def search (re : Regexp) : Nat → List Char → Option Caps
  | pos, s =>
    match (re.re.run pos s (List.replicate (re.numSubexp + 1) [])).head? with
    | some t => some (t.2.2.set 0 t.1)
    | none =>
      match s with
      | [] => none
      | _ :: s' => search re (pos + 1) s'

/-- Element 0 of `re.FindAllStringSubmatch(s, n)`: the first match with its
submatches, or `none` when the result is nil (no match, or `n = 0`). -/
def Regexp.findAllStringSubmatchHead (re : Regexp) (s : String) (n : Int) :
    Option (List String) :=
  if n = 0 then none else (search re 0 s.toList).map fun c => c.map String.mk

/-- Go's `re.MatchString(s)`. -/
def Regexp.MatchString (re : Regexp) (s : String) : Bool :=
  (search re 0 s.toList).isSome

/-! ## The program -/

/-- The pattern of a log line (`LogRegex` in the source). -/
def LogRegex : Regexp where
  numSubexp := 4
  re := Regex.cat [
    .bol, .str "<134>", .rep 4 digit, .lit '-', .rep 2 digit, .lit '-', .rep 2 digit,
    .lit 'T', .rep 2 digit, .lit ':', .rep 2 digit, .lit ':', .rep 2 digit, .lit 'Z',
    space, .str "cache-", .rep 3 (.cls [('a', 'z')]), .rep 4 digit,
    space, .str "downloads", .lit '[', digit.plus, .lit ']', .lit ':',
    space,
    .group 1 (.seq (.rep 3 (.seq (.repRange 1 3 digit) (.lit '.'))) (.repRange 1 3 digit)),
    space, .group 2 (.star .dot),
    space, .str "GMT",
    space, .lit '/', .alt (.str "staging") (.str "production"),
    .dot, .str "s3", .dot, .str "rubygems", .dot, .str "org/gems/",
    .group 3 (.star .dot), .lit '.', .str "gem",
    space, .rep 3 digit,
    space, .group 4 (.star .dot), .eol]

/-- The pattern splitting a file name into gem name and version (`NameRegex`). -/
def NameRegex : Regexp where
  numSubexp := 2
  re := Regex.cat [.bol, .group 1 (.star .dot), .lit '-', .group 2 (.star .dot), .eol]

/-- The pattern of a RubyGems user agent (`UserAgentRegex`). -/
def UserAgentRegex : Regexp where
  numSubexp := 4
  re := Regex.cat [
    .bol, .str "Ruby, RubyGems/", .group 1 (Regex.plus (.cls [('0', '9'), ('.', '.')])),
    space, .group 2 (.star .dot),
    space, .str "Ruby/", .group 3 (.star .dot),
    space, .lit '(', .group 4 (.star .dot), .lit ')', .eol]

/-- The parsed download event (`Download` in the source). -/
structure Download where
  GemName : String
  FullGemName : String
  RubygemsVersion : String
  RubygemsPlatform : String
  RubyVersion : String
  RubyRelease : String
  deriving DecidableEq, Repr

/-- A run-time panic of the Go program. -/
inductive Panic where
  | indexOutOfRange : Panic
  deriving DecidableEq, Repr

/-- Equality of outcomes is decidable. -/
instance instDecidableEqOutcome {ε α : Type} [DecidableEq ε] [DecidableEq α] :
    DecidableEq (Except ε α)
  | .ok a, .ok b =>
    if h : a = b then isTrue (congrArg Except.ok h) else isFalse fun h' => h (Except.ok.inj h')
  | .error a, .error b =>
    if h : a = b then isTrue (congrArg Except.error h)
    else isFalse fun h' => h (Except.error.inj h')
  | .ok _, .error _ => isFalse fun h => Except.noConfusion h
  | .error _, .ok _ => isFalse fun h => Except.noConfusion h

/-- The index expression `xs[0]` on the result of `FindAllStringSubmatch`,
which is nil when there is no match. -/
def first (r : Option (List String)) : Except Panic (List String) :=
  match r with
  | some xs => .ok xs
  | none => .error .indexOutOfRange

/-- The index expression `xs[i]` on a slice of strings. -/
def index (xs : List String) (i : Nat) : Except Panic String :=
  match xs[i]? with
  | some x => .ok x
  | none => .error .indexOutOfRange

/-- The function `parseLogLine` of the source. The result is the returned pair
of the `Download` and the error value (`none` is Go's nil), or a panic. -/
def parseLogLine (logLine : String) : Except Panic (Download × Option String) := do
  let logParts ← first (LogRegex.findAllStringSubmatchHead logLine 4)
  let nameParts ← first (NameRegex.findAllStringSubmatchHead (← index logParts 3) 1)
  let parsed : Download := {
    GemName := ← index nameParts 1
    FullGemName := ← index logParts 3
    RubygemsVersion := ""
    RubygemsPlatform := ""
    RubyVersion := ""
    RubyRelease := "" }
  let userAgent ← index logParts 4
  if UserAgentRegex.MatchString userAgent then
    let userAgentParts ← first (UserAgentRegex.findAllStringSubmatchHead userAgent 4)
    let parsed := { parsed with RubygemsVersion := ← index userAgentParts 1 }
    let parsed := { parsed with RubygemsPlatform := ← index userAgentParts 2 }
    let parsed := { parsed with RubyVersion := ← index userAgentParts 3 }
    let parsed := { parsed with RubyRelease := ← index userAgentParts 4 }
    return (parsed, none)
  else
    return (parsed, none)

/-- A command issued to the redis client. -/
inductive Mutation where
  | Incr (key : String) : Mutation
  | ZIncrBy (key : String) (increment : Int) (member : String) : Mutation
  | HIncrBy (key field : String) (incr : Int) : Mutation
  deriving DecidableEq, Repr

/-- The function `save` of the source, as the sequence of commands it issues to
the client. `today` is the value of `strftime.Format("%Y-%m-%d", time.Now())`. -/
def save (data : Download) (today : String) : List Mutation :=
  [ .Incr "downloads",
    .Incr ("downloads:rubygem:" ++ data.GemName),
    .Incr ("downloads:version:" ++ data.FullGemName),
    .ZIncrBy ("downloads:today:" ++ today) 1 data.FullGemName,
    .ZIncrBy "downloads:all" 1 data.FullGemName,
    .HIncrBy ("downloads:version_history:" ++ data.FullGemName) today 1,
    .HIncrBy ("downloads:rubygem_history:" ++ data.GemName) today 1 ]
  ++ (if data.RubygemsVersion != "" then
        [.HIncrBy ("usage:rubygem_version:" ++ today) data.RubygemsVersion 1] else [])
  ++ (if data.RubygemsPlatform != "" then
        [.HIncrBy ("usage:ruby_platform:" ++ today) data.RubygemsPlatform 1] else [])
  ++ (if data.RubyVersion != "" then
        [.HIncrBy ("usage:ruby_version:" ++ today) data.RubyVersion 1] else [])
  ++ (if data.RubyRelease != "" then
        [.HIncrBy ("usage:ruby_release:" ++ today) data.RubyRelease 1] else [])

/-- The number of non-empty fields among the four client-metadata fields. -/
def populated (d : Download) : Nat :=
  (if d.RubygemsVersion = "" then 0 else 1) + (if d.RubygemsPlatform = "" then 0 else 1)
  + (if d.RubyVersion = "" then 0 else 1) + (if d.RubyRelease = "" then 0 else 1)

/-- The per-batch line loop of `main`: the commands issued to the client, in
order, and the panic that ended the program, if any. The loop stops at the
first empty line; an error value returned by `parseLogLine` is only logged, and
the `Download` is saved all the same. `today` is the date `save` reads from the
clock, taken to be the same for the whole batch. -/
def mainLoop (today : String) : List String → List Mutation × Option Panic
  | [] => ([], none)
  | logLine :: rest =>
    if logLine = "" then ([], none)
    else
      match parseLogLine logLine with
      | .error p => ([], some p)
      | .ok (parsed, _) =>
        let r := mainLoop today rest
        (save parsed today ++ r.1, r.2)

/-- The redis data type a command operates on. -/
inductive KeyType where
  | counter : KeyType
  | sortedSet : KeyType
  | hash : KeyType
  deriving DecidableEq, Repr

/-- The key a command operates on. -/
def Mutation.key : Mutation → String
  | .Incr key => key
  | .ZIncrBy key _ _ => key
  | .HIncrBy key _ _ => key

/-- The data type a command requires of its key. -/
def Mutation.keyType : Mutation → KeyType
  | .Incr _ => .counter
  | .ZIncrBy _ _ _ => .sortedSet
  | .HIncrBy _ _ _ => .hash

/-- The first sample line documented above `LogRegex` in the source; it ends
right after the status. -/
def sampleLine₁ : String :=
  "<134>2015-08-24T02:23:27Z cache-iad2134 downloads[484670]: 108.227.232.148 Mon, 24 Aug 2015 02:23:25 GMT /staging.s3.rubygems.org/gems/dwradcliffe_test_gem_push-0.0.47.gem 304"

/-- The second sample line documented above `LogRegex` in the source. -/
def sampleLine₂ : String :=
  "<134>2015-08-24T12:44:59Z cache-lhr6335 downloads[332933]: 54.72.251.121 Mon, 24 Aug 2015 12:44:59 GMT /production.s3.rubygems.org/gems/multi_xml-0.5.5.gem 200 Ruby, RubyGems/2.0.14 x86_64-linux Ruby/2.0.0 (2015-04-13 patchlevel 645)"

/-! ## Auxiliary definitions used by the proofs -/

/-- All ways of cutting a list in two, longest first part first. -/
def splitsDesc : List Char → List (List Char × List Char)
  | [] => [([], [])]
  | x :: xs => (splitsDesc xs).map (fun ws => (x :: ws.1, ws.2)) ++ [([], x :: xs)]

/-- The pattern has no capturing group. -/
def Regex.noGroups : Regex → Bool
  | .group _ _ => false
  | .seq r₁ r₂ => r₁.noGroups && r₂.noGroups
  | .alt r₁ r₂ => r₁.noGroups && r₂.noGroups
  | .star r => r.noGroups
  | _ => true

/-- The four client-metadata fields `parseLogLine` stores for a user agent:
the submatches of `UserAgentRegex` when it matches, empty strings otherwise. -/
def userAgentFields (userAgent : String) : String × String × String × String :=
  match UserAgentRegex.findAllStringSubmatchHead userAgent 4 with
  | some [_, v, p, rv, rr] => (v, p, rv, rr)
  | _ => ("", "", "", "")

/-- The `Download` built from a gem name, a file name and a user agent. -/
def mkDownload (gemName fullGemName userAgent : String) : Download :=
  { GemName := gemName
    FullGemName := fullGemName
    RubygemsVersion := (userAgentFields userAgent).1
    RubygemsPlatform := (userAgentFields userAgent).2.1
    RubyVersion := (userAgentFields userAgent).2.2.1
    RubyRelease := (userAgentFields userAgent).2.2.2 }

/-! ## The matcher: what `run` lists -/

theorem mem_oneChar {p : Char → Bool} {s : List Char} {c : Caps} {t : Thread} :
    t ∈ oneChar p s c ↔ ∃ x xs, s = x :: xs ∧ p x = true ∧ t = ([x], xs, c) := by
  cases s with
  | nil => simp [oneChar]
  | cons y ys =>
    by_cases hp : p y = true
    · simp only [oneChar, hp, if_true, List.mem_singleton]
      constructor
      · intro h
        exact ⟨y, ys, rfl, hp, h⟩
      · rintro ⟨x, xs, hs, -, ht⟩
        simp only [List.cons.injEq] at hs
        rw [hs.1, hs.2]
        exact ht
    · simp only [oneChar, hp, Bool.false_eq_true, if_false, List.not_mem_nil, false_iff]
      rintro ⟨x, xs, hs, hx, -⟩
      simp only [List.cons.injEq] at hs
      rw [hs.1] at hp
      exact hp hx

theorem mem_splitsDesc {l : List Char} {ws : List Char × List Char} :
    ws ∈ splitsDesc l ↔ ws.1 ++ ws.2 = l := by
  induction l generalizing ws with
  | nil =>
    obtain ⟨w, r⟩ := ws
    simp [splitsDesc]
  | cons x xs ih =>
    obtain ⟨w, r⟩ := ws
    simp only [splitsDesc, List.mem_append, List.mem_map, List.mem_singleton, Prod.mk.injEq]
    constructor
    · rintro (⟨a, ha, rfl, rfl⟩ | ⟨rfl, rfl⟩)
      · simp [ih.mp ha]
      · rfl
    · intro h
      cases w with
      | nil => right; exact ⟨rfl, h⟩
      | cons y ys =>
        left
        simp only [List.cons_append, List.cons.injEq] at h
        exact ⟨(ys, r), ih.mpr h.2, by simp [h.1], rfl⟩

theorem splitsDesc_head (l : List Char) :
    ∃ T, splitsDesc l = (l, []) :: T := by
  induction l with
  | nil => exact ⟨[], rfl⟩
  | cons x xs ih =>
    obtain ⟨T, hT⟩ := ih
    exact ⟨T.map (fun ws => (x :: ws.1, ws.2)) ++ [([], x :: xs)], by simp [splitsDesc, hT]⟩

theorem splitsDesc_append (u v : List Char) :
    ∃ T, splitsDesc (u ++ v) = (splitsDesc v).map (fun ws => (u ++ ws.1, ws.2)) ++ T := by
  induction u with
  | nil => exact ⟨[], by simp⟩
  | cons x xs ih =>
    obtain ⟨T, hT⟩ := ih
    refine ⟨T.map (fun ws => (x :: ws.1, ws.2)) ++ [([], x :: (xs ++ v))], ?_⟩
    simp [splitsDesc, hT]

/-- A greedy loop over a one-character step lists the cuts of the longest
prefix the step accepts, longest first. -/
theorem starLoop_oneChar (p : Char → Bool) (c : Caps) :
    ∀ (s : List Char) (fuel pos : Nat), s.length ≤ fuel →
      starLoop (fun _ s c => oneChar p s c) fuel pos s c =
        (splitsDesc (s.takeWhile p)).map fun ws => (ws.1, ws.2 ++ s.dropWhile p, c) := by
  intro s
  induction s with
  | nil =>
    intro fuel pos _
    cases fuel <;> simp [starLoop, oneChar, splitsDesc]
  | cons x xs ih =>
    intro fuel pos hf
    cases fuel with
    | zero => simp at hf
    | succ n =>
      have hn : xs.length ≤ n := by simpa using hf
      by_cases hp : p x = true
      · have h1 : oneChar p (x :: xs) c = [([x], xs, c)] := by simp [oneChar, hp]
        simp only [starLoop, h1]
        simp [ih n (pos + 1) hn, splitsDesc, List.takeWhile_cons, List.dropWhile_cons, hp]
      · have h1 : oneChar p (x :: xs) c = [] := by simp [oneChar, hp]
        simp only [starLoop, h1]
        simp [splitsDesc, List.takeWhile_cons, List.dropWhile_cons, hp]

theorem run_star_oneChar {r : Regex} {p : Char → Bool}
    (h : ∀ pos s c, r.run pos s c = oneChar p s c) (pos : Nat) (s : List Char) (c : Caps) :
    (Regex.star r).run pos s c =
      (splitsDesc (s.takeWhile p)).map fun ws => (ws.1, ws.2 ++ s.dropWhile p, c) := by
  have hr : r.run = fun _ s c => oneChar p s c := by
    funext pos s c
    exact h pos s c
  simp only [Regex.run, hr]
  exact starLoop_oneChar p c s s.length pos (le_refl _)

theorem mem_run_star_oneChar {r : Regex} {p : Char → Bool}
    (h : ∀ pos s c, r.run pos s c = oneChar p s c) {pos : Nat} {s : List Char} {c : Caps}
    {t : Thread} :
    t ∈ (Regex.star r).run pos s c ↔
      ∃ w s', s = w ++ s' ∧ (∀ x ∈ w, p x = true) ∧ t = (w, s', c) := by
  rw [run_star_oneChar h]
  simp only [List.mem_map, mem_splitsDesc]
  constructor
  · rintro ⟨⟨w, r'⟩, hw, rfl⟩
    simp only at hw
    refine ⟨w, r' ++ s.dropWhile p, ?_, ?_, rfl⟩
    · rw [← List.append_assoc, hw, List.takeWhile_append_dropWhile]
    · intro x hx
      exact List.mem_takeWhile_imp (hw ▸ List.mem_append_left _ hx)
  · rintro ⟨w, s', rfl, hw, rfl⟩
    refine ⟨(w, s'.takeWhile p), ?_, ?_⟩
    · simp [List.takeWhile_append_of_pos hw]
    · simp [List.dropWhile_append_of_pos hw]

section Membership

variable {pos : Nat} {s : List Char} {c : Caps} {t : Thread}

theorem mem_run_empty : t ∈ Regex.empty.run pos s c ↔ t = ([], s, c) := by
  simp [Regex.run]

theorem mem_run_bol : t ∈ Regex.bol.run pos s c ↔ pos = 0 ∧ t = ([], s, c) := by
  by_cases h : pos = 0 <;> simp [Regex.run, h]

theorem mem_run_eol : t ∈ Regex.eol.run pos s c ↔ s = [] ∧ t = ([], [], c) := by
  cases s <;> simp [Regex.run]

theorem mem_run_lit {a : Char} :
    t ∈ (Regex.lit a).run pos s c ↔ ∃ xs, s = a :: xs ∧ t = ([a], xs, c) := by
  simp only [Regex.run, mem_oneChar, beq_iff_eq]
  constructor
  · rintro ⟨x, xs, rfl, rfl, rfl⟩
    exact ⟨xs, rfl, rfl⟩
  · rintro ⟨xs, rfl, rfl⟩
    exact ⟨a, xs, rfl, rfl, rfl⟩

theorem mem_run_cls {rs : List (Char × Char)} :
    t ∈ (Regex.cls rs).run pos s c ↔
      ∃ x xs, s = x :: xs ∧ inRanges rs x = true ∧ t = ([x], xs, c) := by
  simp only [Regex.run, mem_oneChar]

theorem mem_run_dot :
    t ∈ Regex.dot.run pos s c ↔ ∃ x xs, s = x :: xs ∧ x ≠ '\n' ∧ t = ([x], xs, c) := by
  simp [Regex.run, mem_oneChar, notNewline]

theorem mem_run_seq {r₁ r₂ : Regex} :
    t ∈ (Regex.seq r₁ r₂).run pos s c ↔
      ∃ w₁ s₁ c₁, (w₁, s₁, c₁) ∈ r₁.run pos s c ∧
        ∃ w₂ s₂ c₂, (w₂, s₂, c₂) ∈ r₂.run (pos + w₁.length) s₁ c₁ ∧
          t = (w₁ ++ w₂, s₂, c₂) := by
  simp only [Regex.run, List.mem_flatMap, List.mem_map, Prod.exists]
  constructor
  · rintro ⟨w₁, s₁, c₁, h₁, w₂, s₂, c₂, h₂, rfl⟩
    exact ⟨w₁, s₁, c₁, h₁, w₂, s₂, c₂, h₂, rfl⟩
  · rintro ⟨w₁, s₁, c₁, h₁, w₂, s₂, c₂, h₂, rfl⟩
    exact ⟨w₁, s₁, c₁, h₁, w₂, s₂, c₂, h₂, rfl⟩

theorem mem_run_alt {r₁ r₂ : Regex} :
    t ∈ (Regex.alt r₁ r₂).run pos s c ↔ t ∈ r₁.run pos s c ∨ t ∈ r₂.run pos s c := by
  simp [Regex.run]

theorem mem_run_group {i : Nat} {r : Regex} :
    t ∈ (Regex.group i r).run pos s c ↔
      ∃ w s' c', (w, s', c') ∈ r.run pos s c ∧ t = (w, s', c'.set i w) := by
  simp only [Regex.run, List.mem_map, Prod.exists]
  constructor
  · rintro ⟨w, s', c', h, rfl⟩
    exact ⟨w, s', c', h, rfl⟩
  · rintro ⟨w, s', c', h, rfl⟩
    exact ⟨w, s', c', h, rfl⟩

theorem mem_run_star_dot :
    t ∈ (Regex.star .dot).run pos s c ↔
      ∃ w s', s = w ++ s' ∧ (∀ x ∈ w, x ≠ '\n') ∧ t = (w, s', c) := by
  rw [mem_run_star_oneChar (r := .dot) (p := notNewline) (fun _ _ _ => rfl)]
  simp [notNewline]

theorem mem_run_star_cls {rs : List (Char × Char)} :
    t ∈ (Regex.star (.cls rs)).run pos s c ↔
      ∃ w s', s = w ++ s' ∧ (∀ x ∈ w, inRanges rs x = true) ∧ t = (w, s', c) :=
  mem_run_star_oneChar (r := .cls rs) (p := inRanges rs) (fun _ _ _ => rfl)

theorem mem_run_cat_nil : t ∈ (Regex.cat []).run pos s c ↔ t = ([], s, c) := by
  simp [Regex.cat, Regex.run]

theorem mem_run_cat_cons {r : Regex} {rs : List Regex} :
    t ∈ (Regex.cat (r :: rs)).run pos s c ↔
      ∃ w₁ s₁ c₁, (w₁, s₁, c₁) ∈ r.run pos s c ∧
        ∃ w₂ s₂ c₂, (w₂, s₂, c₂) ∈ (Regex.cat rs).run (pos + w₁.length) s₁ c₁ ∧
          t = (w₁ ++ w₂, s₂, c₂) := by
  rw [Regex.cat, mem_run_seq]

end Membership

theorem starLoop_text {step : Nat → List Char → Caps → List Thread}
    (hstep : ∀ pos s c t, t ∈ step pos s c → s = t.1 ++ t.2.1) :
    ∀ (fuel pos : Nat) (s : List Char) (c : Caps) (t : Thread),
      t ∈ starLoop step fuel pos s c → s = t.1 ++ t.2.1 := by
  intro fuel
  induction fuel with
  | zero =>
    intro pos s c t h
    simp only [starLoop, List.mem_singleton] at h
    simp [h]
  | succ n ih =>
    intro pos s c t h
    simp only [starLoop, List.mem_append, List.mem_flatMap, List.mem_singleton] at h
    rcases h with ⟨t₁, h₁, h₂⟩ | h
    · split at h₂
      · simp at h₂
      · simp only [List.mem_map] at h₂
        obtain ⟨t₂, ht₂, rfl⟩ := h₂
        have e₁ := hstep _ _ _ _ h₁
        have e₂ := ih _ _ _ _ ht₂
        simp only [List.append_assoc]
        rw [← e₂]
        exact e₁
    · simp [h]

/-- Every thread splits the text it was run on into what it consumed and what
is left. -/
theorem run_text {r : Regex} :
    ∀ {pos : Nat} {s : List Char} {c : Caps} {t : Thread},
      t ∈ r.run pos s c → s = t.1 ++ t.2.1 := by
  induction r with
  | empty => intro pos s c t h; simp [mem_run_empty.mp h]
  | bol => intro pos s c t h; simp [(mem_run_bol.mp h).2]
  | eol => intro pos s c t h; simp [(mem_run_eol.mp h).1, (mem_run_eol.mp h).2]
  | lit a =>
    intro pos s c t h
    obtain ⟨xs, rfl, rfl⟩ := mem_run_lit.mp h
    rfl
  | cls rs =>
    intro pos s c t h
    obtain ⟨x, xs, rfl, -, rfl⟩ := mem_run_cls.mp h
    rfl
  | dot =>
    intro pos s c t h
    obtain ⟨x, xs, rfl, -, rfl⟩ := mem_run_dot.mp h
    rfl
  | seq r₁ r₂ ih₁ ih₂ =>
    intro pos s c t h
    obtain ⟨w₁, s₁, c₁, h₁, w₂, s₂, c₂, h₂, rfl⟩ := mem_run_seq.mp h
    have e₁ := ih₁ h₁
    have e₂ := ih₂ h₂
    simp only at e₁ e₂ ⊢
    rw [List.append_assoc, ← e₂]
    exact e₁
  | alt r₁ r₂ ih₁ ih₂ =>
    intro pos s c t h
    rcases mem_run_alt.mp h with h | h
    · exact ih₁ h
    · exact ih₂ h
  | star r ih =>
    intro pos s c t h
    exact starLoop_text (fun _ _ _ _ h => ih h) _ _ _ _ _ h
  | group i r ih =>
    intro pos s c t h
    obtain ⟨w, s', c', h', rfl⟩ := mem_run_group.mp h
    exact ih (t := (w, s', c')) h'

/-- A pattern that starts with `^` can only match at offset 0, so the search
reports the first thread at offset 0. -/
theorem search_bol (re : Regexp) (r : Regex) (hre : re.re = .seq .bol r) (s : List Char) :
    search re 0 s =
      (((Regex.seq .bol r).run 0 s (List.replicate (re.numSubexp + 1) [])).head?).map
        fun t => t.2.2.set 0 t.1 := by
  have hno : ∀ (s : List Char) (pos : Nat), search re (pos + 1) s = none := by
    intro s
    induction s with
    | nil => intro pos; simp [search, hre, Regex.run]
    | cons x xs ih => intro pos; simp [search, hre, Regex.run, ih]
  cases hh : ((Regex.seq .bol r).run 0 s (List.replicate (re.numSubexp + 1) [])).head? with
  | some t =>
    cases s <;> simp [search, hre, hh]
  | none =>
    cases s with
    | nil => simp [search, hre, hh]
    | cons x xs => simp [search, hre, hh, hno]
/-! ## Unfolding equations of `run` -/

theorem run_seq (r₁ r₂ : Regex) (pos : Nat) (s : List Char) (c : Caps) :
    (Regex.seq r₁ r₂).run pos s c =
      (r₁.run pos s c).flatMap fun t₁ =>
        (r₂.run (pos + t₁.1.length) t₁.2.1 t₁.2.2).map fun t₂ =>
          (t₁.1 ++ t₂.1, t₂.2.1, t₂.2.2) := by
  rw [Regex.run]

theorem run_group (i : Nat) (r : Regex) (pos : Nat) (s : List Char) (c : Caps) :
    (Regex.group i r).run pos s c =
      (r.run pos s c).map fun t => (t.1, t.2.1, t.2.2.set i t.1) := by
  rw [Regex.run]

theorem run_lit_cons (a x : Char) (pos : Nat) (xs : List Char) (c : Caps) :
    (Regex.lit a).run pos (x :: xs) c = if x = a then [([x], xs, c)] else [] := by
  simp [Regex.run, oneChar]

theorem run_lit_nil (a : Char) (pos : Nat) (c : Caps) :
    (Regex.lit a).run pos [] c = [] := by
  simp [Regex.run, oneChar]

theorem run_eol_nil (pos : Nat) (c : Caps) : Regex.eol.run pos [] c = [([], [], c)] := by
  simp [Regex.run]

theorem run_bol_zero (s : List Char) (c : Caps) : Regex.bol.run 0 s c = [([], s, c)] := by
  simp [Regex.run]

theorem run_empty (pos : Nat) (s : List Char) (c : Caps) :
    Regex.empty.run pos s c = [([], s, c)] := by
  simp [Regex.run]

theorem head?_flatMap_skip {α β : Type} (f : α → List β) (A T : List α) (x : α) (b : β)
    (hA : ∀ y ∈ A, f y = []) (hx : (f x).head? = some b) :
    ((A ++ x :: T).flatMap f).head? = some b := by
  simp [List.flatMap_append, List.flatMap_eq_nil_iff.mpr hA, hx]

theorem run_star_dot_of_clean (pos : Nat) (s : List Char) (c : Caps)
    (hs : ∀ x ∈ s, x ≠ '\n') :
    (Regex.star .dot).run pos s c = (splitsDesc s).map fun ws => (ws.1, ws.2, c) := by
  have h1 : s.takeWhile notNewline = s :=
    List.takeWhile_eq_self_iff.mpr (fun x hx => by simpa [notNewline] using hs x hx)
  have h2 : s.dropWhile notNewline = [] :=
    List.dropWhile_eq_nil_iff.mpr (fun x hx => by simpa [notNewline] using hs x hx)
  rw [run_star_oneChar (r := .dot) (p := notNewline) (fun _ _ _ => rfl), h1, h2]
  simp

theorem Regex.cat_nil : Regex.cat [] = .empty := rfl

theorem Regex.cat_cons (r : Regex) (rs : List Regex) :
    Regex.cat (r :: rs) = .seq r (Regex.cat rs) := rfl

/-! ## `NameRegex` -/

theorem NameRegex_re : NameRegex.re =
    .seq .bol (Regex.cat [.group 1 (.star .dot), .lit '-', .group 2 (.star .dot), .eol]) := rfl

/-- The part of `NameRegex` after the hyphen takes a newline-free rest whole. -/
theorem run_name_version (pos : Nat) (v : List Char) (c : Caps) (hv : ∀ x ∈ v, x ≠ '\n') :
    ((Regex.cat [.group 2 (.star .dot), .eol]).run pos v c).head? =
      some (v, [], c.set 2 v) := by
  obtain ⟨T, hT⟩ := splitsDesc_head v
  simp [Regex.cat, run_seq, run_group, run_star_dot_of_clean _ _ _ hv, hT, run_eol_nil,
    run_empty]

theorem search_NameRegex_last_hyphen (a v : List Char)
    (ha : ∀ x ∈ a, x ≠ '\n') (hv : ∀ x ∈ v, x ≠ '\n') (hy : '-' ∉ v) :
    search NameRegex 0 (a ++ '-' :: v) = some [a ++ '-' :: v, a, v] := by
  rw [search_bol NameRegex _ NameRegex_re]
  have hs : ∀ x ∈ a ++ '-' :: v, x ≠ '\n' := by
    intro x hx
    simp only [List.mem_append, List.mem_cons] at hx
    rcases hx with hx | rfl | hx
    · exact ha x hx
    · decide
    · exact hv x hx
  obtain ⟨T, hT⟩ := splitsDesc_append a ('-' :: v)
  rw [run_seq, run_bol_zero]
  simp only [List.flatMap_cons, List.flatMap_nil, List.append_nil, List.head?_map,
    Option.map_map]
  rw [Regex.cat, run_seq, run_group, run_star_dot_of_clean _ _ _ hs, hT, splitsDesc]
  simp only [List.map_append, List.map_map, List.map_cons, List.map_nil, List.append_assoc,
    List.singleton_append, Function.comp]
  rw [head?_flatMap_skip _ _ _ _ ((a ++ '-' :: v), [], (List.replicate (2 + 1) []).set 1 a |>.set 2 v)]
  · simp
  · intro y hy'
    simp only [List.mem_map] at hy'
    obtain ⟨⟨w, r⟩, hw, rfl⟩ := hy'
    have hwr := mem_splitsDesc.mp hw
    simp only at hwr ⊢
    cases r with
    | nil => simp [Regex.cat_cons, run_seq, run_lit_nil]
    | cons x xs =>
      have hx : x ≠ '-' := by
        rintro rfl
        apply hy
        rw [← hwr]
        simp
      simp [Regex.cat_cons, run_seq, run_lit_cons, hx]
  · rw [Regex.cat_cons, run_seq, run_lit_cons]
    simp [run_name_version _ _ _ hv, NameRegex]

section Triples

variable {pos : Nat} {s s' : List Char} {c c' : Caps} {w : List Char}

theorem run_empty_iff : (w, s', c') ∈ Regex.empty.run pos s c ↔ w = [] ∧ s' = s ∧ c' = c := by
  simp [mem_run_empty]

theorem run_bol_iff :
    (w, s', c') ∈ Regex.bol.run pos s c ↔ pos = 0 ∧ w = [] ∧ s' = s ∧ c' = c := by
  simp [mem_run_bol]

theorem run_eol_iff :
    (w, s', c') ∈ Regex.eol.run pos s c ↔ s = [] ∧ w = [] ∧ s' = [] ∧ c' = c := by
  simp [mem_run_eol]

theorem run_lit_iff {a : Char} :
    (w, s', c') ∈ (Regex.lit a).run pos s c ↔ w = [a] ∧ s = a :: s' ∧ c' = c := by
  simp only [mem_run_lit, Prod.mk.injEq]
  constructor
  · rintro ⟨xs, rfl, rfl, rfl, rfl⟩
    exact ⟨rfl, rfl, rfl⟩
  · rintro ⟨rfl, rfl, rfl⟩
    exact ⟨s', rfl, rfl, rfl, rfl⟩

theorem run_cls_iff {rs : List (Char × Char)} :
    (w, s', c') ∈ (Regex.cls rs).run pos s c ↔
      ∃ x, inRanges rs x = true ∧ w = [x] ∧ s = x :: s' ∧ c' = c := by
  simp only [mem_run_cls, Prod.mk.injEq]
  constructor
  · rintro ⟨x, xs, rfl, hx, rfl, rfl, rfl⟩
    exact ⟨x, hx, rfl, rfl, rfl⟩
  · rintro ⟨x, hx, rfl, rfl, rfl⟩
    exact ⟨x, s', rfl, hx, rfl, rfl, rfl⟩

theorem run_dot_iff :
    (w, s', c') ∈ Regex.dot.run pos s c ↔ ∃ x, x ≠ '\n' ∧ w = [x] ∧ s = x :: s' ∧ c' = c := by
  simp only [mem_run_dot, Prod.mk.injEq]
  constructor
  · rintro ⟨x, xs, rfl, hx, rfl, rfl, rfl⟩
    exact ⟨x, hx, rfl, rfl, rfl⟩
  · rintro ⟨x, hx, rfl, rfl, rfl⟩
    exact ⟨x, s', rfl, hx, rfl, rfl, rfl⟩

theorem run_seq_iff {r₁ r₂ : Regex} :
    (w, s', c') ∈ (Regex.seq r₁ r₂).run pos s c ↔
      ∃ w₁ w₂ s₁ c₁, (w₁, s₁, c₁) ∈ r₁.run pos s c ∧
        (w₂, s', c') ∈ r₂.run (pos + w₁.length) s₁ c₁ ∧ w = w₁ ++ w₂ := by
  simp only [mem_run_seq, Prod.mk.injEq]
  constructor
  · rintro ⟨w₁, s₁, c₁, h₁, w₂, s₂, c₂, h₂, rfl, rfl, rfl⟩
    exact ⟨w₁, w₂, s₁, c₁, h₁, h₂, rfl⟩
  · rintro ⟨w₁, w₂, s₁, c₁, h₁, h₂, rfl⟩
    exact ⟨w₁, s₁, c₁, h₁, w₂, s', c', h₂, rfl, rfl, rfl⟩

theorem run_group_iff {i : Nat} {r : Regex} :
    (w, s', c') ∈ (Regex.group i r).run pos s c ↔
      ∃ c₁, (w, s', c₁) ∈ r.run pos s c ∧ c' = c₁.set i w := by
  simp only [mem_run_group, Prod.mk.injEq]
  constructor
  · rintro ⟨w₁, s₁, c₁, h₁, rfl, rfl, rfl⟩
    exact ⟨c₁, h₁, rfl⟩
  · rintro ⟨c₁, h₁, rfl⟩
    exact ⟨w, s', c₁, h₁, rfl, rfl, rfl⟩

theorem run_star_dot_iff :
    (w, s', c') ∈ (Regex.star .dot).run pos s c ↔
      s = w ++ s' ∧ (∀ x ∈ w, x ≠ '\n') ∧ c' = c := by
  simp only [mem_run_star_dot, Prod.mk.injEq]
  constructor
  · rintro ⟨w₁, s₁, rfl, h, rfl, rfl, rfl⟩
    exact ⟨rfl, h, rfl⟩
  · rintro ⟨rfl, h, rfl⟩
    exact ⟨w, s', rfl, h, rfl, rfl, rfl⟩

theorem run_star_cls_iff {rs : List (Char × Char)} :
    (w, s', c') ∈ (Regex.star (.cls rs)).run pos s c ↔
      s = w ++ s' ∧ (∀ x ∈ w, inRanges rs x = true) ∧ c' = c := by
  simp only [mem_run_star_cls, Prod.mk.injEq]
  constructor
  · rintro ⟨w₁, s₁, rfl, h, rfl, rfl, rfl⟩
    exact ⟨rfl, h, rfl⟩
  · rintro ⟨rfl, h, rfl⟩
    exact ⟨w, s', rfl, h, rfl, rfl, rfl⟩

end Triples

/-- Whatever `NameRegex` matches is cut at a hyphen: the submatches are the
text, the part before that hyphen and the part after it. -/
theorem search_NameRegex_sound (s : List Char) (caps : Caps)
    (h : search NameRegex 0 s = some caps) :
    ∃ a v, s = a ++ '-' :: v ∧ caps = [s, a, v] ∧
      (∀ x ∈ a, x ≠ '\n') ∧ (∀ x ∈ v, x ≠ '\n') := by
  rw [search_bol NameRegex _ NameRegex_re] at h
  simp only [Option.map_eq_some'] at h
  obtain ⟨⟨w, s', c'⟩, ht, rfl⟩ := h
  have hm := List.mem_of_mem_head? ht
  simp [Regex.cat, run_seq_iff, run_bol_iff, run_group_iff, run_star_dot_iff,
    run_lit_iff, run_eol_iff, run_empty_iff, NameRegex] at hm
  casesm* _ ∧ _, ∃ _, _
  subst_vars
  rename_i a ha v hv
  exact ⟨a, v, by simp, by simp, ha, hv⟩

/-! ## `LogRegex` -/

section Derived

variable {pos : Nat} {s s' : List Char} {c c' : Caps} {w : List Char}

theorem run_lits_iff (l : List Char) :
    ∀ {pos : Nat} {s s' : List Char} {c c' : Caps} {w : List Char},
      (w, s', c') ∈ (Regex.cat (l.map Regex.lit)).run pos s c ↔
        w = l ∧ s = l ++ s' ∧ c' = c := by
  induction l with
  | nil =>
    intro pos s s' c c' w
    simp only [List.map_nil, Regex.cat, run_empty_iff, List.nil_append]
    constructor
    · rintro ⟨rfl, rfl, rfl⟩
      exact ⟨rfl, rfl, rfl⟩
    · rintro ⟨rfl, rfl, rfl⟩
      exact ⟨rfl, rfl, rfl⟩
  | cons a l ih =>
    intro pos s s' c c' w
    simp only [List.map_cons, Regex.cat, run_seq_iff, run_lit_iff, ih]
    constructor
    · rintro ⟨w₁, w₂, s₁, c₁, ⟨rfl, rfl, rfl⟩, ⟨rfl, rfl, rfl⟩, rfl⟩
      exact ⟨rfl, rfl, rfl⟩
    · rintro ⟨rfl, rfl, rfl⟩
      exact ⟨[a], l, l ++ s', c', ⟨rfl, rfl, rfl⟩, ⟨rfl, rfl, rfl⟩, rfl⟩

theorem run_str_iff {x : String} :
    (w, s', c') ∈ (Regex.str x).run pos s c ↔
      w = x.toList ∧ s = x.toList ++ s' ∧ c' = c :=
  run_lits_iff x.toList

theorem run_rep_cls_iff (rs : List (Char × Char)) (n : Nat) :
    ∀ {pos : Nat} {s s' : List Char} {c c' : Caps} {w : List Char},
      (w, s', c') ∈ (Regex.rep n (.cls rs)).run pos s c ↔
        w.length = n ∧ (∀ x ∈ w, inRanges rs x = true) ∧ s = w ++ s' ∧ c' = c := by
  induction n with
  | zero =>
    intro pos s s' c c' w
    simp only [Regex.rep, List.replicate, Regex.cat, run_empty_iff, List.length_eq_zero]
    constructor
    · rintro ⟨rfl, rfl, rfl⟩
      simp
    · rintro ⟨rfl, -, h, rfl⟩
      exact ⟨rfl, by simpa using h.symm, rfl⟩
  | succ n ih =>
    intro pos s s' c c' w
    have ih' : ∀ {pos : Nat} {s s' : List Char} {c c' : Caps} {w : List Char},
        (w, s', c') ∈ (Regex.cat (List.replicate n (.cls rs))).run pos s c ↔
          w.length = n ∧ (∀ x ∈ w, inRanges rs x = true) ∧ s = w ++ s' ∧ c' = c := ih
    simp only [Regex.rep, List.replicate, Regex.cat, run_seq_iff, run_cls_iff, ih']
    constructor
    · rintro ⟨w₁, w₂, s₁, c₁, ⟨x, hx, rfl, rfl, rfl⟩, ⟨rfl, hw, rfl, rfl⟩, rfl⟩
      refine ⟨by simp [Nat.add_comm], ?_, rfl, rfl⟩
      intro y hy
      simp only [List.singleton_append, List.mem_cons] at hy
      rcases hy with rfl | hy
      · exact hx
      · exact hw y hy
    · rintro ⟨hl, hw, rfl, rfl⟩
      cases w with
      | nil => simp at hl
      | cons x xs =>
        refine ⟨[x], xs, xs ++ s', c', ⟨x, hw x (by simp), rfl, rfl, rfl⟩,
          ⟨by simpa using hl, fun y hy => hw y (by simp [hy]), rfl, rfl⟩, rfl⟩

theorem run_plus_cls_iff {rs : List (Char × Char)} :
    (w, s', c') ∈ (Regex.plus (.cls rs)).run pos s c ↔
      w ≠ [] ∧ (∀ x ∈ w, inRanges rs x = true) ∧ s = w ++ s' ∧ c' = c := by
  simp only [Regex.plus, run_seq_iff, run_cls_iff, run_star_cls_iff]
  constructor
  · rintro ⟨w₁, w₂, s₁, c₁, ⟨x, hx, rfl, rfl, rfl⟩, ⟨rfl, hw, rfl⟩, rfl⟩
    refine ⟨by simp, ?_, rfl, rfl⟩
    intro y hy
    simp only [List.singleton_append, List.mem_cons] at hy
    rcases hy with rfl | hy
    · exact hx
    · exact hw y hy
  · rintro ⟨hne, hw, rfl, rfl⟩
    cases w with
    | nil => exact absurd rfl hne
    | cons x xs =>
      exact ⟨[x], xs, xs ++ s', c', ⟨x, hw x (by simp), rfl, rfl, rfl⟩,
        ⟨rfl, fun y hy => hw y (by simp [hy]), rfl⟩, rfl⟩

theorem run_optNest_cls_iff (rs : List (Char × Char)) (k : Nat) :
    ∀ {pos : Nat} {s s' : List Char} {c c' : Caps} {w : List Char},
      (w, s', c') ∈ (Regex.optNest k (.cls rs)).run pos s c ↔
        w.length ≤ k ∧ (∀ x ∈ w, inRanges rs x = true) ∧ s = w ++ s' ∧ c' = c := by
  induction k with
  | zero =>
    intro pos s s' c c' w
    simp only [Regex.optNest, run_empty_iff, Nat.le_zero, List.length_eq_zero]
    constructor
    · rintro ⟨rfl, rfl, rfl⟩
      simp
    · rintro ⟨rfl, -, h, rfl⟩
      exact ⟨rfl, by simpa using h.symm, rfl⟩
  | succ k ih =>
    intro pos s s' c c' w
    simp only [Regex.optNest, Regex.opt, mem_run_alt, run_seq_iff, run_cls_iff, ih,
      run_empty_iff]
    constructor
    · rintro (⟨w₁, w₂, s₁, c₁, ⟨x, hx, rfl, rfl, rfl⟩, ⟨hl, hw, rfl, rfl⟩, rfl⟩ | ⟨rfl, rfl, rfl⟩)
      · refine ⟨by simpa [Nat.add_comm] using hl, ?_, rfl, rfl⟩
        intro y hy
        simp only [List.singleton_append, List.mem_cons] at hy
        rcases hy with rfl | hy
        · exact hx
        · exact hw y hy
      · simp
    · rintro ⟨hl, hw, rfl, rfl⟩
      cases w with
      | nil => right; simp
      | cons x xs =>
        left
        exact ⟨[x], xs, xs ++ s', c', ⟨x, hw x (by simp), rfl, rfl, rfl⟩,
          ⟨by simpa using hl, fun y hy => hw y (by simp [hy]), rfl, rfl⟩, rfl⟩

theorem run_repRange_cls_iff {rs : List (Char × Char)} {lo hi : Nat} :
    (w, s', c') ∈ (Regex.repRange lo hi (.cls rs)).run pos s c ↔
      lo ≤ w.length ∧ w.length ≤ lo + (hi - lo) ∧ (∀ x ∈ w, inRanges rs x = true) ∧
        s = w ++ s' ∧ c' = c := by
  simp only [Regex.repRange, run_seq_iff, run_rep_cls_iff, run_optNest_cls_iff]
  constructor
  · rintro ⟨w₁, w₂, s₁, c₁, ⟨rfl, h₁, rfl, rfl⟩, ⟨hl, h₂, rfl, rfl⟩, rfl⟩
    refine ⟨by simp, by simpa using hl, ?_, by simp, rfl⟩
    intro y hy
    rcases List.mem_append.mp hy with hy | hy
    · exact h₁ y hy
    · exact h₂ y hy
  · rintro ⟨h₁, h₂, hw, rfl, rfl⟩
    refine ⟨w.take lo, w.drop lo, w.drop lo ++ s', c',
      ⟨by simpa using h₁, fun y hy => hw y (List.mem_of_mem_take hy),
        by rw [← List.append_assoc, List.take_append_drop], rfl⟩,
      ⟨by simp; omega, fun y hy => hw y (List.mem_of_mem_drop hy), rfl, rfl⟩, by simp⟩

end Derived


theorem starLoop_caps {step : Nat → List Char → Caps → List Thread}
    (hstep : ∀ pos s c t, t ∈ step pos s c → t.2.2 = c) :
    ∀ (fuel pos : Nat) (s : List Char) (c : Caps) (t : Thread),
      t ∈ starLoop step fuel pos s c → t.2.2 = c := by
  intro fuel
  induction fuel with
  | zero =>
    intro pos s c t h
    simp only [starLoop, List.mem_singleton] at h
    simp [h]
  | succ n ih =>
    intro pos s c t h
    simp only [starLoop, List.mem_append, List.mem_flatMap, List.mem_singleton] at h
    rcases h with ⟨t₁, h₁, h₂⟩ | h
    · split at h₂
      · simp at h₂
      · simp only [List.mem_map] at h₂
        obtain ⟨t₂, ht₂, rfl⟩ := h₂
        have e₁ := hstep _ _ _ _ h₁
        have e₂ := ih _ _ _ _ ht₂
        simp only
        rw [e₂, e₁]
    · simp [h]

/-- A pattern without capturing groups leaves the captures as they are. -/
theorem run_caps {r : Regex} (hr : r.noGroups = true) :
    ∀ {pos : Nat} {s : List Char} {c : Caps} {t : Thread},
      t ∈ r.run pos s c → t.2.2 = c := by
  induction r with
  | empty => intro pos s c t h; simp [mem_run_empty.mp h]
  | bol => intro pos s c t h; simp [(mem_run_bol.mp h).2]
  | eol => intro pos s c t h; simp [(mem_run_eol.mp h).2]
  | lit a =>
    intro pos s c t h
    obtain ⟨xs, rfl, rfl⟩ := mem_run_lit.mp h
    rfl
  | cls rs =>
    intro pos s c t h
    obtain ⟨x, xs, rfl, -, rfl⟩ := mem_run_cls.mp h
    rfl
  | dot =>
    intro pos s c t h
    obtain ⟨x, xs, rfl, -, rfl⟩ := mem_run_dot.mp h
    rfl
  | seq r₁ r₂ ih₁ ih₂ =>
    intro pos s c t h
    simp only [Regex.noGroups, Bool.and_eq_true] at hr
    obtain ⟨w₁, s₁, c₁, h₁, w₂, s₂, c₂, h₂, rfl⟩ := mem_run_seq.mp h
    have e₁ := ih₁ hr.1 h₁
    have e₂ := ih₂ hr.2 h₂
    simp only at e₁ e₂ ⊢
    rw [e₂, e₁]
  | alt r₁ r₂ ih₁ ih₂ =>
    intro pos s c t h
    simp only [Regex.noGroups, Bool.and_eq_true] at hr
    rcases mem_run_alt.mp h with h | h
    · exact ih₁ hr.1 h
    · exact ih₂ hr.2 h
  | star r ih =>
    intro pos s c t h
    simp only [Regex.noGroups] at hr
    exact starLoop_caps (fun _ _ _ _ h => ih hr h) _ _ _ _ _ h
  | group i r _ =>
    simp [Regex.noGroups] at hr

theorem run_cat_append_iff (l₁ l₂ : List Regex) :
    ∀ {pos : Nat} {s s' : List Char} {c c' : Caps} {w : List Char},
      (w, s', c') ∈ (Regex.cat (l₁ ++ l₂)).run pos s c ↔
        ∃ w₁ w₂ s₁ c₁, (w₁, s₁, c₁) ∈ (Regex.cat l₁).run pos s c ∧
          (w₂, s', c') ∈ (Regex.cat l₂).run (pos + w₁.length) s₁ c₁ ∧ w = w₁ ++ w₂ := by
  induction l₁ with
  | nil =>
    intro pos s s' c c' w
    simp only [List.nil_append, Regex.cat_nil, run_empty_iff]
    constructor
    · intro h
      exact ⟨[], w, s, c, ⟨rfl, rfl, rfl⟩, by simpa using h, rfl⟩
    · rintro ⟨w₁, w₂, s₁, c₁, ⟨rfl, rfl, rfl⟩, h, rfl⟩
      simpa using h
  | cons r l ih =>
    intro pos s s' c c' w
    simp only [List.cons_append, Regex.cat_cons, run_seq_iff, ih]
    constructor
    · rintro ⟨w₁, w₂, s₁, c₁, h₁, ⟨w₃, w₄, s₂, c₂, h₂, h₃, rfl⟩, rfl⟩
      refine ⟨w₁ ++ w₃, w₄, s₂, c₂, ⟨w₁, w₃, s₁, c₁, h₁, h₂, rfl⟩, ?_, by simp⟩
      simpa [Nat.add_assoc] using h₃
    · rintro ⟨w₁, w₂, s₁, c₁, ⟨w₃, w₄, s₂, c₂, h₁, h₂, rfl⟩, h₃, rfl⟩
      refine ⟨w₃, w₄ ++ w₂, s₂, c₂, h₁, ⟨w₄, w₂, s₁, c₁, h₂, ?_, rfl⟩, by simp⟩
      simpa [Nat.add_assoc] using h₃

/-- Peel a group-free block and the capturing group after it off a
concatenation. -/
theorem run_block_group {A B : List Regex} {i : Nat} {r : Regex}
    {pos : Nat} {s s' : List Char} {c c' : Caps} {w : List Char}
    (h : (w, s', c') ∈ (Regex.cat (A ++ .group i r :: B)).run pos s c)
    (hA : (Regex.cat A).noGroups = true) (hr : r.noGroups = true) :
    ∃ wA wG wB sA sG,
      (wA, sA, c) ∈ (Regex.cat A).run pos s c ∧
      (wG, sG, c) ∈ r.run (pos + wA.length) sA c ∧
      (wB, s', c') ∈ (Regex.cat B).run (pos + wA.length + wG.length) sG (c.set i wG) ∧
      w = wA ++ (wG ++ wB) := by
  rw [run_cat_append_iff] at h
  obtain ⟨wA, w₂, sA, cA, hA', h, rfl⟩ := h
  have hcA : cA = c := run_caps hA hA'
  subst hcA
  rw [Regex.cat_cons, run_seq_iff] at h
  obtain ⟨wG, wB, sG, cG, hG, hB, rfl⟩ := h
  rw [run_group_iff] at hG
  obtain ⟨c₁, hG, rfl⟩ := hG
  have hc₁ : c₁ = cA := run_caps hr hG
  subst hc₁
  exact ⟨wA, wG, wB, sA, sG, hA', hG, hB, rfl⟩

theorem LogRegex_re : LogRegex.re = .seq .bol (Regex.cat [
    .str "<134>", .rep 4 digit, .lit '-', .rep 2 digit, .lit '-', .rep 2 digit,
    .lit 'T', .rep 2 digit, .lit ':', .rep 2 digit, .lit ':', .rep 2 digit, .lit 'Z',
    space, .str "cache-", .rep 3 (.cls [('a', 'z')]), .rep 4 digit,
    space, .str "downloads", .lit '[', digit.plus, .lit ']', .lit ':',
    space,
    .group 1 (.seq (.rep 3 (.seq (.repRange 1 3 digit) (.lit '.'))) (.repRange 1 3 digit)),
    space, .group 2 (.star .dot),
    space, .str "GMT",
    space, .lit '/', .alt (.str "staging") (.str "production"),
    .dot, .str "s3", .dot, .str "rubygems", .dot, .str "org/gems/",
    .group 3 (.star .dot), .lit '.', .str "gem",
    space, .rep 3 digit,
    space, .group 4 (.star .dot), .eol]) := rfl

/-- The pattern `LogRegex` as four group-free blocks, each followed by a
capturing group, and the final `$`. -/
theorem LogRegex_blocks : LogRegex.re = Regex.cat (
    [ .bol, .str "<134>", .rep 4 digit, .lit '-', .rep 2 digit, .lit '-', .rep 2 digit,
      .lit 'T', .rep 2 digit, .lit ':', .rep 2 digit, .lit ':', .rep 2 digit, .lit 'Z',
      space, .str "cache-", .rep 3 (.cls [('a', 'z')]), .rep 4 digit,
      space, .str "downloads", .lit '[', digit.plus, .lit ']', .lit ':', space ] ++
    .group 1 (.seq (.rep 3 (.seq (.repRange 1 3 digit) (.lit '.'))) (.repRange 1 3 digit)) :: (
    [ space ] ++ .group 2 (.star .dot) :: (
    [ space, .str "GMT", space, .lit '/', .alt (.str "staging") (.str "production"),
      .dot, .str "s3", .dot, .str "rubygems", .dot, .str "org/gems/" ] ++
    .group 3 (.star .dot) :: (
    [ .lit '.', .str "gem", space, .rep 3 digit, space ] ++
    .group 4 (.star .dot) :: [ .eol ])))) := rfl

/-- Whatever `LogRegex` matches: the submatches are the whole line and four
captured texts, and the captured file name and tail contain no newline. -/
theorem search_LogRegex_sound (s : List Char) (caps : Caps)
    (h : search LogRegex 0 s = some caps) :
    ∃ ip date tok tail, caps = [s, ip, date, tok, tail] ∧
      (∀ x ∈ date, x ≠ '\n') ∧ (∀ x ∈ tok, x ≠ '\n') ∧ (∀ x ∈ tail, x ≠ '\n') := by
  rw [search_bol LogRegex _ LogRegex_re, ← LogRegex_re] at h
  simp only [Option.map_eq_some'] at h
  obtain ⟨⟨w, s', c'⟩, ht, rfl⟩ := h
  have hm := List.mem_of_mem_head? ht
  have hw := run_text hm
  clear ht
  rw [LogRegex_blocks] at hm
  obtain ⟨w₁, ip, r₁, s₁, t₁, -, -, hm₁, rfl⟩ := run_block_group hm rfl rfl
  obtain ⟨w₂, date, r₂, s₂, t₂, -, hdate, hm₂, rfl⟩ := run_block_group hm₁ rfl rfl
  obtain ⟨w₃, tok, r₃, s₃, t₃, -, htok, hm₃, rfl⟩ := run_block_group hm₂ rfl rfl
  obtain ⟨w₄, tail, r₄, s₄, t₄, -, htail, hm₄, rfl⟩ := run_block_group hm₃ rfl rfl
  clear hm hm₁ hm₂ hm₃
  simp only [Regex.cat, run_seq_iff, run_eol_iff, run_empty_iff] at hm₄
  obtain ⟨_, _, _, _, ⟨-, rfl, rfl, rfl⟩, ⟨rfl, rfl, rfl⟩, rfl⟩ := hm₄
  simp only [List.append_nil] at hw
  refine ⟨ip, date, tok, tail, ?_, (run_star_dot_iff.mp hdate).2.1,
    (run_star_dot_iff.mp htok).2.1, (run_star_dot_iff.mp htail).2.1⟩
  rw [hw]
  simp [LogRegex]

/-! ## The submatch slices have one entry per group -/

theorem starLoop_caps_length {step : Nat → List Char → Caps → List Thread}
    (hstep : ∀ pos s c t, t ∈ step pos s c → t.2.2.length = c.length) :
    ∀ (fuel pos : Nat) (s : List Char) (c : Caps) (t : Thread),
      t ∈ starLoop step fuel pos s c → t.2.2.length = c.length := by
  intro fuel
  induction fuel with
  | zero =>
    intro pos s c t h
    simp only [starLoop, List.mem_singleton] at h
    simp [h]
  | succ n ih =>
    intro pos s c t h
    simp only [starLoop, List.mem_append, List.mem_flatMap, List.mem_singleton] at h
    rcases h with ⟨t₁, h₁, h₂⟩ | h
    · split at h₂
      · simp at h₂
      · simp only [List.mem_map] at h₂
        obtain ⟨t₂, ht₂, rfl⟩ := h₂
        have e₁ := hstep _ _ _ _ h₁
        have e₂ := ih _ _ _ _ ht₂
        simp only
        rw [e₂, e₁]
    · simp [h]

/-- Matching never changes the number of capture slots. -/
theorem run_caps_length {r : Regex} :
    ∀ {pos : Nat} {s : List Char} {c : Caps} {t : Thread},
      t ∈ r.run pos s c → t.2.2.length = c.length := by
  induction r with
  | empty => intro pos s c t h; simp [mem_run_empty.mp h]
  | bol => intro pos s c t h; simp [(mem_run_bol.mp h).2]
  | eol => intro pos s c t h; simp [(mem_run_eol.mp h).2]
  | lit a =>
    intro pos s c t h
    obtain ⟨xs, rfl, rfl⟩ := mem_run_lit.mp h
    rfl
  | cls rs =>
    intro pos s c t h
    obtain ⟨x, xs, rfl, -, rfl⟩ := mem_run_cls.mp h
    rfl
  | dot =>
    intro pos s c t h
    obtain ⟨x, xs, rfl, -, rfl⟩ := mem_run_dot.mp h
    rfl
  | seq r₁ r₂ ih₁ ih₂ =>
    intro pos s c t h
    obtain ⟨w₁, s₁, c₁, h₁, w₂, s₂, c₂, h₂, rfl⟩ := mem_run_seq.mp h
    have e₁ := ih₁ h₁
    have e₂ := ih₂ h₂
    simp only at e₁ e₂ ⊢
    rw [e₂, e₁]
  | alt r₁ r₂ ih₁ ih₂ =>
    intro pos s c t h
    rcases mem_run_alt.mp h with h | h
    · exact ih₁ h
    · exact ih₂ h
  | star r ih =>
    intro pos s c t h
    exact starLoop_caps_length (fun _ _ _ _ h => ih h) _ _ _ _ _ h
  | group i r ih =>
    intro pos s c t h
    obtain ⟨w, s', c', h', rfl⟩ := mem_run_group.mp h
    have e := ih (t := (w, s', c')) h'
    simpa using e

theorem search_length (re : Regexp) :
    ∀ (s : List Char) (pos : Nat) (caps : Caps),
      search re pos s = some caps → caps.length = re.numSubexp + 1 := by
  intro s
  induction s with
  | nil =>
    intro pos caps h
    rw [search] at h
    split at h
    · rename_i t ht
      have := run_caps_length (List.mem_of_mem_head? ht)
      simp only [Option.some.injEq] at h
      rw [← h]
      simpa using this
    · simp at h
  | cons x xs ih =>
    intro pos caps h
    rw [search] at h
    split at h
    · rename_i t ht
      have := run_caps_length (List.mem_of_mem_head? ht)
      simp only [Option.some.injEq] at h
      rw [← h]
      simpa using this
    · exact ih _ _ h

/-! ## The patterns on strings -/

theorem find_eq (re : Regexp) (s : String) (n : Int) (hn : n ≠ 0) :
    re.findAllStringSubmatchHead s n = (search re 0 s.toList).map fun c => c.map String.mk := by
  simp [Regexp.findAllStringSubmatchHead, hn]

theorem LogRegex_find_sound (line : String) (ps : List String)
    (h : LogRegex.findAllStringSubmatchHead line 4 = some ps) :
    ∃ ip date tok tail : String, ps = [line, ip, date, tok, tail] ∧
      '\n' ∉ tok.toList ∧ '\n' ∉ tail.toList := by
  rw [find_eq _ _ _ (by decide)] at h
  simp only [Option.map_eq_some'] at h
  obtain ⟨caps, hc, rfl⟩ := h
  obtain ⟨ip, date, tok, tail, rfl, -, htok, htail⟩ := search_LogRegex_sound _ _ hc
  exact ⟨⟨ip⟩, ⟨date⟩, ⟨tok⟩, ⟨tail⟩, by simp, fun h => htok _ h rfl, fun h => htail _ h rfl⟩

theorem NameRegex_find_sound (tok : String) (ps : List String)
    (h : NameRegex.findAllStringSubmatchHead tok 1 = some ps) :
    ∃ a v : String, tok = a ++ "-" ++ v ∧ ps = [tok, a, v] := by
  rw [find_eq _ _ _ (by decide)] at h
  simp only [Option.map_eq_some'] at h
  obtain ⟨caps, hc, rfl⟩ := h
  obtain ⟨a, v, hs, rfl, -, -⟩ := search_NameRegex_sound _ _ hc
  refine ⟨⟨a⟩, ⟨v⟩, ?_, by simp⟩
  apply String.ext
  simpa using hs

theorem NameRegex_find_last_hyphen (a v : String)
    (ha : '\n' ∉ a.toList) (hv : '\n' ∉ v.toList) (hy : '-' ∉ v.toList) :
    NameRegex.findAllStringSubmatchHead (a ++ "-" ++ v) 1 = some [a ++ "-" ++ v, a, v] := by
  rw [find_eq _ _ _ (by decide)]
  have e : (a ++ "-" ++ v).toList = a.toList ++ '-' :: v.toList := by simp
  rw [e, search_NameRegex_last_hyphen a.toList v.toList
    (fun x hx hn => ha (hn ▸ hx)) (fun x hx hn => hv (hn ▸ hx)) hy]
  simp only [Option.map_some', List.map_cons, List.map_nil, ← e]
  rfl

/-- A list containing `x` is cut at its last `x`. -/
theorem exists_last_split {x : Char} :
    ∀ {l : List Char}, x ∈ l → ∃ a v, l = a ++ x :: v ∧ x ∉ v := by
  intro l
  induction l with
  | nil => intro h; simp at h
  | cons y ys ih =>
    intro h
    by_cases hys : x ∈ ys
    · obtain ⟨a, v, rfl, hv⟩ := ih hys
      exact ⟨y :: a, v, rfl, hv⟩
    · have hxy : x = y := by
        simp only [List.mem_cons] at h
        rcases h with h | h
        · exact h
        · exact absurd h hys
      subst hxy
      exact ⟨[], ys, rfl, hys⟩

/-- A file name with a hyphen and without a newline is split at its last
hyphen. -/
theorem NameRegex_find_of_hyphen (tok : String)
    (hn : '\n' ∉ tok.toList) (hy : '-' ∈ tok.toList) :
    ∃ a v : String, tok = a ++ "-" ++ v ∧ '-' ∉ v.toList ∧
      NameRegex.findAllStringSubmatchHead tok 1 = some [tok, a, v] := by
  obtain ⟨a, v, hs, hv⟩ := exists_last_split hy
  have e : tok = (⟨a⟩ : String) ++ "-" ++ ⟨v⟩ := by
    apply String.ext
    simpa using hs
  have hna : '\n' ∉ a := fun h => hn (by rw [hs]; simp [h])
  have hnv : '\n' ∉ v := fun h => hn (by rw [hs]; simp [h])
  refine ⟨⟨a⟩, ⟨v⟩, e, hv, ?_⟩
  have := NameRegex_find_last_hyphen ⟨a⟩ ⟨v⟩ hna hnv hv
  rw [← e] at this
  exact this
/-! ## `parseLogLine` -/

theorem find_length (re : Regexp) (s : String) (n : Int) (ps : List String)
    (h : re.findAllStringSubmatchHead s n = some ps) : ps.length = re.numSubexp + 1 := by
  by_cases hn : n = 0
  · simp [Regexp.findAllStringSubmatchHead, hn] at h
  · rw [find_eq _ _ _ hn] at h
    simp only [Option.map_eq_some'] at h
    obtain ⟨caps, hc, rfl⟩ := h
    simpa using search_length re _ _ _ hc

theorem matchString_iff (re : Regexp) (s : String) :
    re.MatchString s = true ↔ ∃ ps, re.findAllStringSubmatchHead s 4 = some ps := by
  rw [find_eq _ _ _ (by decide)]
  simp only [Regexp.MatchString, Option.isSome_iff_exists, Option.map_eq_some']
  constructor
  · rintro ⟨c, hc⟩
    exact ⟨_, c, hc, rfl⟩
  · rintro ⟨_, c, hc, -⟩
    exact ⟨c, hc⟩

/-- Once `LogRegex` and `NameRegex` have matched, `parseLogLine` returns. -/
theorem parseLogLine_of_parts (line whole ip date tok tail whole' a v : String)
    (h₁ : LogRegex.findAllStringSubmatchHead line 4 = some [whole, ip, date, tok, tail])
    (h₂ : NameRegex.findAllStringSubmatchHead tok 1 = some [whole', a, v]) :
    parseLogLine line = .ok (mkDownload a tok tail, none) := by
  simp only [parseLogLine, h₁, h₂, first, index, bind, Except.bind, List.getElem?_cons_succ,
    List.getElem?_cons_zero, pure, Except.pure]
  by_cases hm : UserAgentRegex.MatchString tail = true
  · obtain ⟨ps, hps⟩ := (matchString_iff _ _).mp hm
    have hl := find_length _ _ _ _ hps
    rcases ps with _ | ⟨w, _ | ⟨f₁, _ | ⟨f₂, _ | ⟨f₃, _ | ⟨f₄, _ | ⟨x, xs⟩⟩⟩⟩⟩⟩ <;>
      simp [UserAgentRegex] at hl
    simp [hm, hps, mkDownload, userAgentFields]
  · have hno : UserAgentRegex.findAllStringSubmatchHead tail 4 = none := by
      cases hps : UserAgentRegex.findAllStringSubmatchHead tail 4 with
      | none => rfl
      | some ps => exact absurd ((matchString_iff _ _).mpr ⟨ps, hps⟩) hm
    simp [hm, hno, mkDownload, userAgentFields]
theorem parseLogLine_panic_log (line : String)
    (h : LogRegex.findAllStringSubmatchHead line 4 = none) :
    parseLogLine line = .error .indexOutOfRange := by
  simp [parseLogLine, h, first, bind, Except.bind]

theorem parseLogLine_panic_name (line whole ip date tok tail : String)
    (h₁ : LogRegex.findAllStringSubmatchHead line 4 = some [whole, ip, date, tok, tail])
    (h₂ : NameRegex.findAllStringSubmatchHead tok 1 = none) :
    parseLogLine line = .error .indexOutOfRange := by
  simp [parseLogLine, h₁, h₂, first, index, bind, Except.bind]

/-- What a returning `parseLogLine` has done: both patterns matched, and the
`Download` is built from the file name, its part before a hyphen, and the tail. -/
theorem parseLogLine_ok_inv (line : String) (d : Download) (e : Option String)
    (h : parseLogLine line = .ok (d, e)) :
    ∃ ip date tok tail a v : String,
      LogRegex.findAllStringSubmatchHead line 4 = some [line, ip, date, tok, tail] ∧
      NameRegex.findAllStringSubmatchHead tok 1 = some [tok, a, v] ∧
      tok = a ++ "-" ++ v ∧ '\n' ∉ tok.toList ∧ '\n' ∉ tail.toList ∧
      d = mkDownload a tok tail ∧ e = none := by
  cases h₁ : LogRegex.findAllStringSubmatchHead line 4 with
  | none => rw [parseLogLine_panic_log line h₁] at h; cases h
  | some ps =>
    obtain ⟨ip, date, tok, tail, rfl, htok, htail⟩ := LogRegex_find_sound line ps h₁
    cases h₂ : NameRegex.findAllStringSubmatchHead tok 1 with
    | none => rw [parseLogLine_panic_name _ _ _ _ _ _ h₁ h₂] at h; cases h
    | some nps =>
      obtain ⟨a, v, hav, rfl⟩ := NameRegex_find_sound tok nps h₂
      rw [parseLogLine_of_parts _ _ _ _ _ _ _ _ _ h₁ h₂] at h
      simp only [Except.ok.injEq, Prod.mk.injEq] at h
      exact ⟨ip, date, tok, tail, a, v, rfl, h₂, hav, htok, htail, h.1.symm, h.2.symm⟩

/-! ## Claims about `save` -/

/-- C1: the first seven commands `save` issues are, in this order, the three
counter increments, the two sorted-set increments and the two history hash
increments, every increment being by 1. -/
theorem save_first_seven (d : Download) (t : String) :
    (save d t).take 7 =
      [ .Incr "downloads",
        .Incr ("downloads:rubygem:" ++ d.GemName),
        .Incr ("downloads:version:" ++ d.FullGemName),
        .ZIncrBy ("downloads:today:" ++ t) 1 d.FullGemName,
        .ZIncrBy "downloads:all" 1 d.FullGemName,
        .HIncrBy ("downloads:version_history:" ++ d.FullGemName) t 1,
        .HIncrBy ("downloads:rubygem_history:" ++ d.GemName) t 1 ] := by
  simp [save]

theorem key_ne_of_head {a b : String} (x y : String) (p q : List Char) (k : Nat)
    (ha : a.toList = p) (hb : b.toList = q) (hk : p.take k ≠ q.take k)
    (hp : k ≤ p.length) (hq : k ≤ q.length) : a ++ x ≠ b ++ y := by
  intro h
  apply hk
  have h' : (a ++ x).toList = (b ++ y).toList := by rw [h]
  simp only [String.toList, String.data_append] at h' ha hb
  rw [ha, hb] at h'
  have := congrArg (List.take k) h'
  rwa [List.take_append_of_le_length hp, List.take_append_of_le_length hq] at this

theorem save_drop_seven (d : Download) (t : String) :
    (save d t).drop 7 =
      (if d.RubygemsVersion ≠ "" then
        [.HIncrBy ("usage:rubygem_version:" ++ t) d.RubygemsVersion 1] else [])
      ++ (if d.RubygemsPlatform ≠ "" then
        [.HIncrBy ("usage:ruby_platform:" ++ t) d.RubygemsPlatform 1] else [])
      ++ (if d.RubyVersion ≠ "" then
        [.HIncrBy ("usage:ruby_version:" ++ t) d.RubyVersion 1] else [])
      ++ (if d.RubyRelease ≠ "" then
        [.HIncrBy ("usage:ruby_release:" ++ t) d.RubyRelease 1] else []) := by
  simp [save]

/-- C2: each of the four conditional commands of `save` is issued exactly when
its own field is non-empty, whatever the other three fields are; a `Download`
with only `RubygemsVersion` populated issues exactly one conditional command. -/
theorem save_conditional_gating (d : Download) (t : String) :
    (Mutation.HIncrBy ("usage:rubygem_version:" ++ t) d.RubygemsVersion 1 ∈ save d t ↔
      d.RubygemsVersion ≠ "") ∧
    (Mutation.HIncrBy ("usage:ruby_platform:" ++ t) d.RubygemsPlatform 1 ∈ save d t ↔
      d.RubygemsPlatform ≠ "") ∧
    (Mutation.HIncrBy ("usage:ruby_version:" ++ t) d.RubyVersion 1 ∈ save d t ↔
      d.RubyVersion ≠ "") ∧
    (Mutation.HIncrBy ("usage:ruby_release:" ++ t) d.RubyRelease 1 ∈ save d t ↔
      d.RubyRelease ≠ "") ∧
    (d.RubygemsVersion ≠ "" → d.RubygemsPlatform = "" → d.RubyVersion = "" →
      d.RubyRelease = "" →
      (save d t).drop 7 = [.HIncrBy ("usage:rubygem_version:" ++ t) d.RubygemsVersion 1]) := by
  have k1 : ∀ x y : String, "usage:rubygem_version:" ++ x ≠ "downloads:version_history:" ++ y :=
    fun x y => key_ne_of_head x y _ _ 1 rfl rfl (by decide) (by decide) (by decide)
  have k2 : ∀ x y : String, "usage:rubygem_version:" ++ x ≠ "downloads:rubygem_history:" ++ y :=
    fun x y => key_ne_of_head x y _ _ 1 rfl rfl (by decide) (by decide) (by decide)
  have k3 : ∀ x y : String, "usage:ruby_platform:" ++ x ≠ "downloads:version_history:" ++ y :=
    fun x y => key_ne_of_head x y _ _ 1 rfl rfl (by decide) (by decide) (by decide)
  have k4 : ∀ x y : String, "usage:ruby_platform:" ++ x ≠ "downloads:rubygem_history:" ++ y :=
    fun x y => key_ne_of_head x y _ _ 1 rfl rfl (by decide) (by decide) (by decide)
  have k5 : ∀ x y : String, "usage:ruby_version:" ++ x ≠ "downloads:version_history:" ++ y :=
    fun x y => key_ne_of_head x y _ _ 1 rfl rfl (by decide) (by decide) (by decide)
  have k6 : ∀ x y : String, "usage:ruby_version:" ++ x ≠ "downloads:rubygem_history:" ++ y :=
    fun x y => key_ne_of_head x y _ _ 1 rfl rfl (by decide) (by decide) (by decide)
  have k7 : ∀ x y : String, "usage:ruby_release:" ++ x ≠ "downloads:version_history:" ++ y :=
    fun x y => key_ne_of_head x y _ _ 1 rfl rfl (by decide) (by decide) (by decide)
  have k8 : ∀ x y : String, "usage:ruby_release:" ++ x ≠ "downloads:rubygem_history:" ++ y :=
    fun x y => key_ne_of_head x y _ _ 1 rfl rfl (by decide) (by decide) (by decide)
  have v1 : ∀ x y : String, "usage:rubygem_version:" ++ x ≠ "usage:ruby_platform:" ++ y :=
    fun x y => key_ne_of_head x y _ _ 11 rfl rfl (by decide) (by decide) (by decide)
  have v2 : ∀ x y : String, "usage:rubygem_version:" ++ x ≠ "usage:ruby_version:" ++ y :=
    fun x y => key_ne_of_head x y _ _ 11 rfl rfl (by decide) (by decide) (by decide)
  have v3 : ∀ x y : String, "usage:rubygem_version:" ++ x ≠ "usage:ruby_release:" ++ y :=
    fun x y => key_ne_of_head x y _ _ 11 rfl rfl (by decide) (by decide) (by decide)
  have v4 : ∀ x y : String, "usage:ruby_platform:" ++ x ≠ "usage:ruby_version:" ++ y :=
    fun x y => key_ne_of_head x y _ _ 12 rfl rfl (by decide) (by decide) (by decide)
  have v5 : ∀ x y : String, "usage:ruby_platform:" ++ x ≠ "usage:ruby_release:" ++ y :=
    fun x y => key_ne_of_head x y _ _ 12 rfl rfl (by decide) (by decide) (by decide)
  have v6 : ∀ x y : String, "usage:ruby_version:" ++ x ≠ "usage:ruby_release:" ++ y :=
    fun x y => key_ne_of_head x y _ _ 12 rfl rfl (by decide) (by decide) (by decide)
  refine ⟨?_, ?_, ?_, ?_, ?_⟩
  · by_cases h : d.RubygemsVersion = ""
    · simp [save, h, k1, k2, v1, v2, v3]
    · simp [save, h]
  · by_cases h : d.RubygemsPlatform = ""
    · simp [save, h, k3, k4, v4, v5, Ne.symm (v1 _ _)]
    · simp [save, h]
  · by_cases h : d.RubyVersion = ""
    · simp [save, h, k5, k6, v6, Ne.symm (v2 _ _), Ne.symm (v4 _ _)]
    · simp [save, h]
  · by_cases h : d.RubyRelease = ""
    · simp [save, h, k7, k8, Ne.symm (v3 _ _), Ne.symm (v5 _ _), Ne.symm (v6 _ _)]
    · simp [save, h]
  · intro h1 h2 h3 h4
    simp [save_drop_seven, h1, h2, h3, h4]

/-- C2, at a `Download` with only `RubygemsVersion` populated. -/
theorem save_conditional_gating_witness :
    (save ⟨"rake", "rake-10.4.2", "2.0.14", "", "", ""⟩ "2015-08-24").drop 7 =
      [.HIncrBy ("usage:rubygem_version:" ++ "2015-08-24") "2.0.14" 1] :=
  (save_conditional_gating ⟨"rake", "rake-10.4.2", "2.0.14", "", "", ""⟩ "2015-08-24").2.2.2.2
    (by decide) rfl rfl rfl

theorem save_length_eq (d : Download) (t : String) :
    (save d t).length = 7 + populated d := by
  unfold save populated
  by_cases h1 : d.RubygemsVersion = "" <;> by_cases h2 : d.RubygemsPlatform = "" <;>
  by_cases h3 : d.RubyVersion = "" <;> by_cases h4 : d.RubyRelease = "" <;>
  simp [h1, h2, h3, h4]

/-- C3: `save` issues exactly 7 commands plus one for each non-empty field among
the four client-metadata fields, hence between 7 and 11 commands. -/
theorem save_length (d : Download) (t : String) :
    (save d t).length = 7 + populated d ∧ 7 ≤ (save d t).length ∧ (save d t).length ≤ 11 := by
  have h := save_length_eq d t
  refine ⟨h, by omega, ?_⟩
  rw [h]; unfold populated
  split_ifs <;> omega
/-! ## Claims about `parseLogLine` -/

/-- C4 (as stated, refuted): on the first documented sample line, which ends
right after the status 304, `parseLogLine` panics instead of returning the
`Download` the claim names; and once the line is completed by the whitespace the
pattern requires after the status, the `GemName` is not the claimed
"dwradcliffe_test_gem_push-0.0" either. -/
theorem parseLogLine_sampleLine₁_not_as_claimed :
    parseLogLine sampleLine₁ = .error .indexOutOfRange ∧
    parseLogLine sampleLine₁ ≠
      .ok (⟨"dwradcliffe_test_gem_push-0.0", "dwradcliffe_test_gem_push-0.0.47",
        "", "", "", ""⟩, none) ∧
    parseLogLine (sampleLine₁ ++ " ") ≠
      .ok (⟨"dwradcliffe_test_gem_push-0.0", "dwradcliffe_test_gem_push-0.0.47",
        "", "", "", ""⟩, none) := by
  decide!

/-- C4 (amended): on the first documented sample line followed by one space (so
that the status is followed by whitespace and an empty tail), `parseLogLine`
returns the `Download` with `GemName` "dwradcliffe_test_gem_push", `FullGemName`
"dwradcliffe_test_gem_push-0.0.47" and the four client-metadata fields empty,
and `save` of it issues exactly 7 commands, none of them conditional. -/
theorem parseLogLine_sampleLine₁_space :
    parseLogLine (sampleLine₁ ++ " ") =
      .ok (⟨"dwradcliffe_test_gem_push", "dwradcliffe_test_gem_push-0.0.47",
        "", "", "", ""⟩, none) ∧
    ∀ t : String,
      (save ⟨"dwradcliffe_test_gem_push", "dwradcliffe_test_gem_push-0.0.47",
        "", "", "", ""⟩ t).length = 7 ∧
      (save ⟨"dwradcliffe_test_gem_push", "dwradcliffe_test_gem_push-0.0.47",
        "", "", "", ""⟩ t).drop 7 = [] := by
  refine ⟨by decide!, fun t => ?_⟩
  simp [save]

theorem userAgentFields_sample :
    userAgentFields "Ruby, RubyGems/2.0.14 x86_64-linux Ruby/2.0.0 (2015-04-13 patchlevel 645)" =
      ("2.0.14", "x86_64-linux", "2.0.0", "2015-04-13 patchlevel 645") := by
  decide!

/-- C5: for every line `LogRegex` matches whose file name contains a hyphen and
whose tail is the documented RubyGems user agent, `parseLogLine` returns a
`Download` with the four client-metadata fields "2.0.14", "x86_64-linux",
"2.0.0" and "2015-04-13 patchlevel 645", and `save` of it issues exactly 11
commands. -/
theorem parseLogLine_rubygems_tail (line tok t : String) (ps : List String)
    (hm : LogRegex.findAllStringSubmatchHead line 4 = some ps)
    (htok : ps[3]? = some tok) (hy : '-' ∈ tok.toList)
    (htail : ps[4]? =
      some "Ruby, RubyGems/2.0.14 x86_64-linux Ruby/2.0.0 (2015-04-13 patchlevel 645)") :
    ∃ d, parseLogLine line = .ok (d, none) ∧ d.FullGemName = tok ∧
      d.RubygemsVersion = "2.0.14" ∧ d.RubygemsPlatform = "x86_64-linux" ∧
      d.RubyVersion = "2.0.0" ∧ d.RubyRelease = "2015-04-13 patchlevel 645" ∧
      (save d t).length = 11 := by
  obtain ⟨ip, date, tok', tail, rfl, hn, -⟩ := LogRegex_find_sound line ps hm
  simp only [List.getElem?_cons_succ, List.getElem?_cons_zero, Option.some.injEq] at htok htail
  subst htok htail
  obtain ⟨a, v, -, -, hname⟩ := NameRegex_find_of_hyphen tok' hn hy
  refine ⟨_, parseLogLine_of_parts _ _ _ _ _ _ _ _ _ hm hname, rfl, ?_, ?_, ?_, ?_, ?_⟩
  · simp [mkDownload, userAgentFields_sample]
  · simp [mkDownload, userAgentFields_sample]
  · simp [mkDownload, userAgentFields_sample]
  · simp [mkDownload, userAgentFields_sample]
  · rw [save_length_eq _ t]
    simp [populated, mkDownload, userAgentFields_sample]

/-- C5, at the documented sample line for multi_xml-0.5.5, which also yields
`GemName` "multi_xml" and `FullGemName` "multi_xml-0.5.5". -/
theorem parseLogLine_rubygems_tail_witness :
    (∃ d, parseLogLine sampleLine₂ = .ok (d, none) ∧ d.FullGemName = "multi_xml-0.5.5" ∧
      d.RubygemsVersion = "2.0.14" ∧ d.RubygemsPlatform = "x86_64-linux" ∧
      d.RubyVersion = "2.0.0" ∧ d.RubyRelease = "2015-04-13 patchlevel 645" ∧
      (save d "2015-08-24").length = 11) ∧
    parseLogLine sampleLine₂ =
      .ok (⟨"multi_xml", "multi_xml-0.5.5", "2.0.14", "x86_64-linux", "2.0.0",
        "2015-04-13 patchlevel 645"⟩, none) :=
  ⟨parseLogLine_rubygems_tail sampleLine₂ "multi_xml-0.5.5" "2015-08-24"
      [sampleLine₂, "54.72.251.121", "Mon, 24 Aug 2015 12:44:59", "multi_xml-0.5.5",
        "Ruby, RubyGems/2.0.14 x86_64-linux Ruby/2.0.0 (2015-04-13 patchlevel 645)"]
      (by decide!) (by decide) (by decide) (by decide),
    by decide!⟩

/-- C6 (the code at a failing input): on a line without the GMT date block,
which `LogRegex` does not match, `parseLogLine` does not return an error value:
it panics on the index into the empty match result. -/
theorem parseLogLine_malformed_panics :
    LogRegex.findAllStringSubmatchHead
      "<134>2015-08-24T12:44:59Z cache-lhr6335 downloads[332933]: 54.72.251.121 /production.s3.rubygems.org/gems/multi_xml-0.5.5.gem 200 -" 4 = none ∧
    parseLogLine
      "<134>2015-08-24T12:44:59Z cache-lhr6335 downloads[332933]: 54.72.251.121 /production.s3.rubygems.org/gems/multi_xml-0.5.5.gem 200 -" =
      .error .indexOutOfRange := by
  decide!

/-- C7: for every line `LogRegex` matches whose file name contains a hyphen,
`parseLogLine` returns, and the `GemName` is the part of the file name before
its last hyphen: the file name is `a ++ "-" ++ v` with no hyphen in `v`, the
name split yields `a` and `v`, and `GemName = a`. -/
theorem parseLogLine_gemName_last_hyphen (line tok : String) (ps : List String)
    (hm : LogRegex.findAllStringSubmatchHead line 4 = some ps)
    (htok : ps[3]? = some tok) (hy : '-' ∈ tok.toList) :
    ∃ (d : Download) (a v : String), parseLogLine line = .ok (d, none) ∧
      tok = a ++ "-" ++ v ∧ '-' ∉ v.toList ∧
      NameRegex.findAllStringSubmatchHead tok 1 = some [tok, a, v] ∧
      d.GemName = a ∧ d.FullGemName = tok := by
  obtain ⟨ip, date, tok', tail, rfl, hn, -⟩ := LogRegex_find_sound line ps hm
  simp only [List.getElem?_cons_succ, List.getElem?_cons_zero, Option.some.injEq] at htok
  subst htok
  obtain ⟨a, v, hav, hv, hname⟩ := NameRegex_find_of_hyphen tok' hn hy
  exact ⟨_, a, v, parseLogLine_of_parts _ _ _ _ _ _ _ _ _ hm hname, hav, hv, hname, rfl, rfl⟩

/-- C7, at a line whose file name "a-b-1.0" has three hyphen-separated parts. -/
theorem parseLogLine_gemName_last_hyphen_witness :
    ∃ (d : Download) (a v : String),
      parseLogLine
        "<134>2015-08-24T12:44:59Z cache-lhr6335 downloads[332933]: 54.72.251.121 Mon, 24 Aug 2015 12:44:59 GMT /production.s3.rubygems.org/gems/a-b-1.0.gem 200 -" =
        .ok (d, none) ∧
      "a-b-1.0" = a ++ "-" ++ v ∧ '-' ∉ v.toList ∧
      NameRegex.findAllStringSubmatchHead "a-b-1.0" 1 = some ["a-b-1.0", a, v] ∧
      d.GemName = a ∧ d.FullGemName = "a-b-1.0" :=
  parseLogLine_gemName_last_hyphen
    "<134>2015-08-24T12:44:59Z cache-lhr6335 downloads[332933]: 54.72.251.121 Mon, 24 Aug 2015 12:44:59 GMT /production.s3.rubygems.org/gems/a-b-1.0.gem 200 -"
    "a-b-1.0"
    ["<134>2015-08-24T12:44:59Z cache-lhr6335 downloads[332933]: 54.72.251.121 Mon, 24 Aug 2015 12:44:59 GMT /production.s3.rubygems.org/gems/a-b-1.0.gem 200 -",
      "54.72.251.121", "Mon, 24 Aug 2015 12:44:59", "a-b-1.0", "-"]
    (by decide!) (by decide) (by decide)

/-- C8 (the code at a failing input): on a line `LogRegex` matches whose file
name "rake" has no hyphen, `NameRegex` does not match and `parseLogLine` panics
on the index into the empty match result, instead of returning a `Download`
with `GemName = FullGemName = "rake"`. -/
theorem parseLogLine_no_hyphen_panics :
    LogRegex.findAllStringSubmatchHead
      "<134>2015-08-24T12:44:59Z cache-lhr6335 downloads[332933]: 54.72.251.121 Mon, 24 Aug 2015 12:44:59 GMT /production.s3.rubygems.org/gems/rake.gem 200 -" 4 =
      some ["<134>2015-08-24T12:44:59Z cache-lhr6335 downloads[332933]: 54.72.251.121 Mon, 24 Aug 2015 12:44:59 GMT /production.s3.rubygems.org/gems/rake.gem 200 -",
        "54.72.251.121", "Mon, 24 Aug 2015 12:44:59", "rake", "-"] ∧
    NameRegex.findAllStringSubmatchHead "rake" 1 = none ∧
    parseLogLine
      "<134>2015-08-24T12:44:59Z cache-lhr6335 downloads[332933]: 54.72.251.121 Mon, 24 Aug 2015 12:44:59 GMT /production.s3.rubygems.org/gems/rake.gem 200 -" =
      .error .indexOutOfRange := by
  decide!
/-- On every line `LogRegex` matches whose file name has no hyphen,
`parseLogLine` panics. -/
theorem parseLogLine_panics_without_hyphen (line tok : String) (ps : List String)
    (hm : LogRegex.findAllStringSubmatchHead line 4 = some ps)
    (htok : ps[3]? = some tok) (hy : '-' ∉ tok.toList) :
    parseLogLine line = .error .indexOutOfRange := by
  obtain ⟨ip, date, tok', tail, rfl, -, -⟩ := LogRegex_find_sound line ps hm
  simp only [List.getElem?_cons_succ, List.getElem?_cons_zero, Option.some.injEq] at htok
  subst htok
  cases h₂ : NameRegex.findAllStringSubmatchHead tok' 1 with
  | none => exact parseLogLine_panic_name _ _ _ _ _ _ hm h₂
  | some nps =>
    obtain ⟨a, v, hav, -⟩ := NameRegex_find_sound tok' nps h₂
    exact absurd (by rw [hav]; simp) hy

/-- C9: every `Download` that `parseLogLine` returns has
`FullGemName = GemName ++ "-" ++ v` for some version suffix `v`; hence `GemName`
is a prefix of `FullGemName`, differs from it, and is strictly shorter. -/
theorem parseLogLine_fullGemName (line : String) (d : Download) (e : Option String)
    (h : parseLogLine line = .ok (d, e)) :
    ∃ v : String, d.FullGemName = d.GemName ++ "-" ++ v ∧
      d.GemName.toList <+: d.FullGemName.toList ∧ d.GemName ≠ d.FullGemName ∧
      d.GemName.length < d.FullGemName.length := by
  obtain ⟨ip, date, tok, tail, a, v, -, -, hav, -, -, rfl, -⟩ := parseLogLine_ok_inv line d e h
  have hl : a.length < tok.length := by
    rw [hav]
    simp only [String.length_append]
    have : "-".length = 1 := rfl
    omega
  refine ⟨v, hav, ?_, ?_, hl⟩
  · show a.toList <+: tok.toList
    rw [hav]
    exact ⟨'-' :: v.toList, by simp⟩
  · show a ≠ tok
    intro hne
    rw [← hne] at hl
    exact Nat.lt_irrefl _ hl

/-- C9, at the second documented sample line. -/
theorem parseLogLine_fullGemName_witness :
    ∃ v : String, "multi_xml-0.5.5" = "multi_xml" ++ "-" ++ v ∧
      "multi_xml".toList <+: "multi_xml-0.5.5".toList ∧ "multi_xml" ≠ "multi_xml-0.5.5" ∧
      "multi_xml".length < "multi_xml-0.5.5".length :=
  parseLogLine_fullGemName sampleLine₂
    ⟨"multi_xml", "multi_xml-0.5.5", "2.0.14", "x86_64-linux", "2.0.0",
      "2015-04-13 patchlevel 645"⟩ none (by decide!)

/-- C10 (as stated, refuted): on a line whose file name is "-1", `parseLogLine`
returns a `Download` whose `GemName` is the empty string. -/
theorem parseLogLine_empty_gemName :
    parseLogLine
      "<134>2015-08-24T12:44:59Z cache-lhr6335 downloads[332933]: 54.72.251.121 Mon, 24 Aug 2015 12:44:59 GMT /production.s3.rubygems.org/gems/-1.gem 200 -" =
      .ok (⟨"", "-1", "", "", "", ""⟩, none) ∧
    (⟨"", "-1", "", "", "", ""⟩ : Download).GemName = "" := by
  decide!

/-- C10 (amended): for every `Download` that `parseLogLine` returns, `GemName` is
empty exactly when `FullGemName` starts with a hyphen and has no other hyphen;
in every other case `GemName` is a non-empty string. -/
theorem parseLogLine_gemName_empty_iff (line : String) (d : Download) (e : Option String)
    (h : parseLogLine line = .ok (d, e)) :
    d.GemName = "" ↔ ∃ v : String, d.FullGemName = "-" ++ v ∧ '-' ∉ v.toList := by
  obtain ⟨ip, date, tok, tail, a, v, -, hname, hav, hn, -, rfl, -⟩ :=
    parseLogLine_ok_inv line d e h
  have hy : '-' ∈ tok.toList := by rw [hav]; simp
  obtain ⟨a', v', hav', hv', hname'⟩ := NameRegex_find_of_hyphen tok hn hy
  rw [hname] at hname'
  simp only [Option.some.injEq, List.cons.injEq, and_true, true_and] at hname'
  obtain ⟨rfl, rfl⟩ := hname'
  show a = "" ↔ ∃ w : String, tok = "-" ++ w ∧ '-' ∉ w.toList
  constructor
  · intro ha
    refine ⟨v, ?_, hv'⟩
    rw [hav, ha]
    rfl
  · rintro ⟨w, hw, hwy⟩
    have e₁ : tok.toList = '-' :: w.toList := by rw [hw]; simp
    have e₂ : tok.toList = a.toList ++ '-' :: v.toList := by rw [hav]; simp
    rw [e₁] at e₂
    cases ha : a.toList with
    | nil => exact String.ext ha
    | cons x xs =>
      rw [ha] at e₂
      simp only [List.cons_append, List.cons.injEq] at e₂
      exact absurd (by rw [e₂.2]; simp) hwy

/-- C10 (amended), at the line whose file name is "-1". -/
theorem parseLogLine_gemName_empty_iff_witness :
    ("" : String) = "" ↔ ∃ v : String, ("-1" : String) = "-" ++ v ∧ '-' ∉ v.toList :=
  parseLogLine_gemName_empty_iff
    "<134>2015-08-24T12:44:59Z cache-lhr6335 downloads[332933]: 54.72.251.121 Mon, 24 Aug 2015 12:44:59 GMT /production.s3.rubygems.org/gems/-1.gem 200 -"
    ⟨"", "-1", "", "", "", ""⟩ none (by decide!)

/-! ## `UserAgentRegex` -/

theorem UserAgentRegex_re : UserAgentRegex.re = .seq .bol (Regex.cat [
    .str "Ruby, RubyGems/", .group 1 (Regex.plus (.cls [('0', '9'), ('.', '.')])),
    space, .group 2 (.star .dot),
    space, .str "Ruby/", .group 3 (.star .dot),
    space, .lit '(', .group 4 (.star .dot), .lit ')', .eol]) := rfl

theorem UserAgentRegex_blocks : UserAgentRegex.re = Regex.cat (
    [ .bol, .str "Ruby, RubyGems/" ] ++
    .group 1 (Regex.plus (.cls [('0', '9'), ('.', '.')])) :: (
    [ space ] ++ .group 2 (.star .dot) :: (
    [ space, .str "Ruby/" ] ++ .group 3 (.star .dot) :: (
    [ space, .lit '(' ] ++ .group 4 (.star .dot) :: [ .lit ')', .eol ])))) := rfl

/-- Whatever `UserAgentRegex` matches: the submatches are the whole text and
four captured texts, the first of which is a non-empty run of digits and dots. -/
theorem search_UserAgentRegex_sound (s : List Char) (caps : Caps)
    (h : search UserAgentRegex 0 s = some caps) :
    ∃ v p rv rr, caps = [s, v, p, rv, rr] ∧ v ≠ [] ∧
      (∀ x ∈ v, inRanges [('0', '9'), ('.', '.')] x = true) := by
  rw [search_bol UserAgentRegex _ UserAgentRegex_re, ← UserAgentRegex_re] at h
  simp only [Option.map_eq_some'] at h
  obtain ⟨⟨w, s', c'⟩, ht, rfl⟩ := h
  have hm := List.mem_of_mem_head? ht
  have hw := run_text hm
  clear ht
  rw [UserAgentRegex_blocks] at hm
  obtain ⟨w₁, v, r₁, s₁, t₁, -, hv, hm₁, rfl⟩ := run_block_group hm rfl rfl
  obtain ⟨w₂, p, r₂, s₂, t₂, -, -, hm₂, rfl⟩ := run_block_group hm₁ rfl rfl
  obtain ⟨w₃, rv, r₃, s₃, t₃, -, -, hm₃, rfl⟩ := run_block_group hm₂ rfl rfl
  obtain ⟨w₄, rr, r₄, s₄, t₄, -, -, hm₄, rfl⟩ := run_block_group hm₃ rfl rfl
  clear hm hm₁ hm₂ hm₃
  simp only [Regex.cat, run_seq_iff, run_eol_iff, run_empty_iff, run_lit_iff] at hm₄
  obtain ⟨_, _, _, _, ⟨rfl, rfl, rfl⟩, ⟨_, _, _, _, ⟨-, rfl, rfl, rfl⟩, ⟨rfl, rfl, rfl⟩, rfl⟩,
    rfl⟩ := hm₄
  simp only [List.append_nil] at hw
  obtain ⟨hne, hcls, -, -⟩ := run_plus_cls_iff.mp hv
  refine ⟨v, p, rv, rr, ?_, hne, hcls⟩
  rw [hw]
  simp [UserAgentRegex]

theorem UserAgentRegex_find_sound (userAgent : String) (ps : List String)
    (h : UserAgentRegex.findAllStringSubmatchHead userAgent 4 = some ps) :
    ∃ v p rv rr : String, ps = [userAgent, v, p, rv, rr] ∧ v ≠ "" := by
  rw [find_eq _ _ _ (by decide)] at h
  simp only [Option.map_eq_some'] at h
  obtain ⟨caps, hc, rfl⟩ := h
  obtain ⟨v, p, rv, rr, rfl, hne, -⟩ := search_UserAgentRegex_sound _ _ hc
  refine ⟨⟨v⟩, ⟨p⟩, ⟨rv⟩, ⟨rr⟩, by simp, ?_⟩
  intro h
  apply hne
  have := congrArg String.toList h
  simpa using this

/-- The fields stored for a user agent are all empty, or the first is not. -/
theorem userAgentFields_cases (userAgent : String) :
    userAgentFields userAgent = ("", "", "", "") ∨ (userAgentFields userAgent).1 ≠ "" := by
  cases hps : UserAgentRegex.findAllStringSubmatchHead userAgent 4 with
  | none => left; simp [userAgentFields, hps]
  | some ps =>
    obtain ⟨v, p, rv, rr, rfl, hv⟩ := UserAgentRegex_find_sound userAgent ps hps
    right
    simpa [userAgentFields, hps] using hv

/-- C12 (as stated, refuted): the tail "Ruby, RubyGems/1  Ruby/ ()" matches
`UserAgentRegex` with an empty platform, runtime version and release info, and a
line with that tail is parsed into a `Download` with `RubygemsVersion` populated
and the other three client-metadata fields empty. -/
theorem userAgent_partial_population :
    UserAgentRegex.findAllStringSubmatchHead "Ruby, RubyGems/1  Ruby/ ()" 4 =
      some ["Ruby, RubyGems/1  Ruby/ ()", "1", "", "", ""] ∧
    parseLogLine
      "<134>2015-08-24T12:44:59Z cache-lhr6335 downloads[332933]: 54.72.251.121 Mon, 24 Aug 2015 12:44:59 GMT /production.s3.rubygems.org/gems/a-1.gem 200 Ruby, RubyGems/1  Ruby/ ()" =
      .ok (⟨"a", "a-1", "1", "", "", ""⟩, none) := by
  decide!

/-- C12 (amended): for every tail that `UserAgentRegex` matches, the extracted
tool version is a non-empty string (the platform, the runtime version and the
release info may be empty); consequently no `Download` returned by
`parseLogLine` has an empty `RubygemsVersion` together with a non-empty
`RubygemsPlatform`, `RubyVersion` or `RubyRelease`. -/
theorem userAgent_version_nonempty :
    (∀ (tail : String) (ps : List String),
      UserAgentRegex.findAllStringSubmatchHead tail 4 = some ps →
        ∃ v p rv rr : String, ps = [tail, v, p, rv, rr] ∧ v ≠ "") ∧
    (∀ (line : String) (d : Download) (e : Option String),
      parseLogLine line = .ok (d, e) → d.RubygemsVersion = "" →
        d.RubygemsPlatform = "" ∧ d.RubyVersion = "" ∧ d.RubyRelease = "") := by
  refine ⟨UserAgentRegex_find_sound, ?_⟩
  intro line d e h hv
  obtain ⟨ip, date, tok, tail, a, v, -, -, -, -, -, rfl, -⟩ := parseLogLine_ok_inv line d e h
  rcases userAgentFields_cases tail with h0 | h1
  · simp [mkDownload, h0]
  · exact absurd hv h1

/-- C12 (amended), at the documented user agent and the second sample line. -/
theorem userAgent_version_nonempty_witness :
    (∃ v p rv rr : String,
      ["Ruby, RubyGems/2.0.14 x86_64-linux Ruby/2.0.0 (2015-04-13 patchlevel 645)",
        "2.0.14", "x86_64-linux", "2.0.0", "2015-04-13 patchlevel 645"] =
      ["Ruby, RubyGems/2.0.14 x86_64-linux Ruby/2.0.0 (2015-04-13 patchlevel 645)",
        v, p, rv, rr] ∧ v ≠ "") ∧
    (("" : String) = "" → ("" : String) = "" ∧ ("" : String) = "" ∧ ("" : String) = "") :=
  ⟨userAgent_version_nonempty.1
      "Ruby, RubyGems/2.0.14 x86_64-linux Ruby/2.0.0 (2015-04-13 patchlevel 645)" _
      (by decide!),
    userAgent_version_nonempty.2
      "<134>2015-08-24T12:44:59Z cache-lhr6335 downloads[332933]: 54.72.251.121 Mon, 24 Aug 2015 12:44:59 GMT /production.s3.rubygems.org/gems/a-1.gem 200 -"
      ⟨"a", "a-1", "", "", "", ""⟩ none (by decide!)⟩

/-! ## Claims about the client metadata -/

theorem userAgentFields_of_no_match (userAgent : String)
    (h : UserAgentRegex.MatchString userAgent = false) :
    userAgentFields userAgent = ("", "", "", "") := by
  have hno : UserAgentRegex.findAllStringSubmatchHead userAgent 4 = none := by
    cases hps : UserAgentRegex.findAllStringSubmatchHead userAgent 4 with
    | none => rfl
    | some ps =>
      have := (matchString_iff _ _).mpr ⟨ps, hps⟩
      rw [h] at this
      cases this
  simp [userAgentFields, hno]

/-- C11: for every line `LogRegex` matches whose file name contains a hyphen and
whose tail `UserAgentRegex` does not match, `parseLogLine` returns with a nil
error a `Download` whose four client-metadata fields are all empty. -/
theorem parseLogLine_unmatched_tail (line tok tail : String) (ps : List String)
    (hm : LogRegex.findAllStringSubmatchHead line 4 = some ps)
    (htok : ps[3]? = some tok) (hy : '-' ∈ tok.toList)
    (htail : ps[4]? = some tail) (hua : UserAgentRegex.MatchString tail = false) :
    ∃ d, parseLogLine line = .ok (d, none) ∧ d.FullGemName = tok ∧
      d.RubygemsVersion = "" ∧ d.RubygemsPlatform = "" ∧
      d.RubyVersion = "" ∧ d.RubyRelease = "" := by
  obtain ⟨ip, date, tok', tail', rfl, hn, -⟩ := LogRegex_find_sound line ps hm
  simp only [List.getElem?_cons_succ, List.getElem?_cons_zero, Option.some.injEq] at htok htail
  subst htok htail
  obtain ⟨a, v, -, -, hname⟩ := NameRegex_find_of_hyphen tok' hn hy
  refine ⟨_, parseLogLine_of_parts _ _ _ _ _ _ _ _ _ hm hname, rfl, ?_, ?_, ?_, ?_⟩ <;>
    simp [mkDownload, userAgentFields_of_no_match _ hua]

/-- C11, at a line whose tail is "curl/7.35.0", which `UserAgentRegex` does not
match. -/
theorem parseLogLine_unmatched_tail_witness :
    ∃ d, parseLogLine
        "<134>2015-08-24T12:44:59Z cache-lhr6335 downloads[332933]: 54.72.251.121 Mon, 24 Aug 2015 12:44:59 GMT /production.s3.rubygems.org/gems/a-1.gem 200 curl/7.35.0" =
        .ok (d, none) ∧ d.FullGemName = "a-1" ∧
      d.RubygemsVersion = "" ∧ d.RubygemsPlatform = "" ∧
      d.RubyVersion = "" ∧ d.RubyRelease = "" :=
  parseLogLine_unmatched_tail
    "<134>2015-08-24T12:44:59Z cache-lhr6335 downloads[332933]: 54.72.251.121 Mon, 24 Aug 2015 12:44:59 GMT /production.s3.rubygems.org/gems/a-1.gem 200 curl/7.35.0"
    "a-1" "curl/7.35.0"
    ["<134>2015-08-24T12:44:59Z cache-lhr6335 downloads[332933]: 54.72.251.121 Mon, 24 Aug 2015 12:44:59 GMT /production.s3.rubygems.org/gems/a-1.gem 200 curl/7.35.0",
      "54.72.251.121", "Mon, 24 Aug 2015 12:44:59", "a-1", "curl/7.35.0"]
    (by decide!) (by decide) (by decide) (by decide) (by decide!)

/-- C13 (the code at two failing inputs): on a line `LogRegex` matches with the
non-empty file name "rake", `parseLogLine` panics instead of returning a
`Download`; on a line `LogRegex` matches with an empty file name, it panics
instead of returning an error value. -/
theorem parseLogLine_fails_by_panic :
    LogRegex.findAllStringSubmatchHead
      "<134>2015-08-24T12:44:59Z cache-lhr6335 downloads[332933]: 54.72.251.121 Mon, 24 Aug 2015 12:44:59 GMT /production.s3.rubygems.org/gems/rake.gem 200 -" 4 =
      some ["<134>2015-08-24T12:44:59Z cache-lhr6335 downloads[332933]: 54.72.251.121 Mon, 24 Aug 2015 12:44:59 GMT /production.s3.rubygems.org/gems/rake.gem 200 -",
        "54.72.251.121", "Mon, 24 Aug 2015 12:44:59", "rake", "-"] ∧
    parseLogLine
      "<134>2015-08-24T12:44:59Z cache-lhr6335 downloads[332933]: 54.72.251.121 Mon, 24 Aug 2015 12:44:59 GMT /production.s3.rubygems.org/gems/rake.gem 200 -" =
      .error .indexOutOfRange ∧
    LogRegex.findAllStringSubmatchHead
      "<134>2015-08-24T12:44:59Z cache-lhr6335 downloads[332933]: 54.72.251.121 Mon, 24 Aug 2015 12:44:59 GMT /production.s3.rubygems.org/gems/.gem 200 -" 4 =
      some ["<134>2015-08-24T12:44:59Z cache-lhr6335 downloads[332933]: 54.72.251.121 Mon, 24 Aug 2015 12:44:59 GMT /production.s3.rubygems.org/gems/.gem 200 -",
        "54.72.251.121", "Mon, 24 Aug 2015 12:44:59", "", "-"] ∧
    parseLogLine
      "<134>2015-08-24T12:44:59Z cache-lhr6335 downloads[332933]: 54.72.251.121 Mon, 24 Aug 2015 12:44:59 GMT /production.s3.rubygems.org/gems/.gem 200 -" =
      .error .indexOutOfRange := by
  decide!

/-! ## Claims about the line loop of `main` -/

/-- C14 (the code at a failing input): in a batch of a malformed line followed
by the second documented sample line, the loop panics on the malformed line and
issues no command at all, although the sample line alone yields 11 commands. -/
theorem mainLoop_malformed_stops_batch :
    mainLoop "2015-08-24"
      ["<134>2015-08-24T12:44:59Z cache-lhr6335 downloads[332933]: 54.72.251.121 /production.s3.rubygems.org/gems/multi_xml-0.5.5.gem 200 -",
        sampleLine₂] = ([], some .indexOutOfRange) ∧
    (mainLoop "2015-08-24" [sampleLine₂]).1.length = 11 ∧
    (mainLoop "2015-08-24" [sampleLine₂]).2 = none := by
  decide!

/-- Lines after the first empty line play no part in the loop. -/
theorem mainLoop_append_empty (today : String) (post : List String) :
    ∀ pre : List String, mainLoop today (pre ++ "" :: post) = mainLoop today pre := by
  intro pre
  induction pre with
  | nil => simp [mainLoop]
  | cons l ls ih =>
    simp only [List.cons_append, mainLoop]
    by_cases hl : l = ""
    · simp [hl]
    · simp only [hl, if_false]
      cases parseLogLine l with
      | error p => rfl
      | ok r => simp only [List.append_eq, ih]

/-- The loop only sees the lines before the first empty line. -/
theorem mainLoop_takeWhile (today : String) (lines : List String) :
    mainLoop today lines = mainLoop today (lines.takeWhile fun l => decide (l ≠ "")) := by
  induction lines with
  | nil => rfl
  | cons l ls ih =>
    by_cases hl : l = ""
    · simp [hl, mainLoop]
    · simp only [mainLoop, hl, if_false, List.takeWhile_cons, ne_eq, not_false_eq_true,
        decide_True, if_true]
      cases parseLogLine l with
      | error p => rfl
      | ok r => simp only [← ih]

/-- A batch of non-empty lines that all parse is saved line by line, in order,
and the loop ends without a panic. -/
theorem mainLoop_of_parsed (today : String) (pre : List String) (ds : List Download)
    (hne : ∀ l ∈ pre, l ≠ "")
    (hp : List.Forall₂ (fun l d => ∃ e, parseLogLine l = .ok (d, e)) pre ds) :
    mainLoop today pre = (ds.flatMap fun d => save d today, none) := by
  induction hp with
  | nil => rfl
  | @cons l d ls ds' hld _ ih =>
    obtain ⟨e, he⟩ := hld
    have hl : l ≠ "" := hne l (by simp)
    have ih' := ih (fun x hx => hne x (by simp [hx]))
    simp only [mainLoop, hl, if_false, he, ih', List.flatMap_cons]

/-- C20: the loop stops at the first empty line instead of skipping it. The
result for a batch is the result for the lines strictly before its first empty
line, whatever follows it; and when those lines parse to the `Download`s `ds`,
the commands issued are exactly those of `save` for `ds`, in order, so that the
lines before the empty line are parsed and saved and no line after it yields a
command. -/
theorem mainLoop_stops_at_empty_line (today : String) (lines : List String) :
    mainLoop today lines = mainLoop today (lines.takeWhile fun l => decide (l ≠ "")) ∧
    (∀ pre post : List String, mainLoop today (pre ++ "" :: post) = mainLoop today pre) ∧
    (∀ ds : List Download,
      List.Forall₂ (fun l d => ∃ e, parseLogLine l = .ok (d, e))
        (lines.takeWhile fun l => decide (l ≠ "")) ds →
      mainLoop today lines = (ds.flatMap fun d => save d today, none)) ∧
    (∀ (pre post : List String) (ds : List Download),
      (∀ l ∈ pre, l ≠ "") →
      List.Forall₂ (fun l d => ∃ e, parseLogLine l = .ok (d, e)) pre ds →
      mainLoop today (pre ++ "" :: post) = (ds.flatMap fun d => save d today, none)) := by
  refine ⟨mainLoop_takeWhile today lines,
    fun pre post => mainLoop_append_empty today post pre, ?_, ?_⟩
  · intro ds hp
    rw [mainLoop_takeWhile today lines]
    refine mainLoop_of_parsed today _ ds ?_ hp
    intro l hl
    have := List.mem_takeWhile_imp hl
    simpa using this
  · intro pre post ds hne hp
    rw [mainLoop_append_empty today post pre]
    exact mainLoop_of_parsed today pre ds hne hp

/-- C20, at the batch of the second documented sample line twice, an empty line,
and the sample line again: the commands are those of the first two lines. -/
theorem mainLoop_stops_at_empty_line_witness :
    mainLoop "2015-08-24" ([sampleLine₂, sampleLine₂] ++ "" :: [sampleLine₂]) =
      (([⟨"multi_xml", "multi_xml-0.5.5", "2.0.14", "x86_64-linux", "2.0.0",
          "2015-04-13 patchlevel 645"⟩,
        ⟨"multi_xml", "multi_xml-0.5.5", "2.0.14", "x86_64-linux", "2.0.0",
          "2015-04-13 patchlevel 645"⟩] : List Download).flatMap
        fun d => save d "2015-08-24", none) :=
  (mainLoop_stops_at_empty_line "2015-08-24" []).2.2.2 [sampleLine₂, sampleLine₂]
    [sampleLine₂] _ (by decide)
    (List.Forall₂.cons ⟨none, by decide!⟩ (List.Forall₂.cons ⟨none, by decide!⟩ List.Forall₂.nil))

/-! ## The shape of a line `LogRegex` matches -/

section Peel

variable {pos : Nat} {s s' : List Char} {c c' : Caps} {w : List Char} {rs : List Regex}

theorem peel_lit {a : Char}
    (h : (w, s', c') ∈ (Regex.cat (.lit a :: rs)).run pos s c) :
    ∃ w' pos' s₁, w = a :: w' ∧ (w', s', c') ∈ (Regex.cat rs).run pos' s₁ c := by
  rw [Regex.cat_cons, run_seq_iff] at h
  obtain ⟨w₁, w₂, s₁, c₁, h₁, h₂, rfl⟩ := h
  obtain ⟨rfl, -, rfl⟩ := run_lit_iff.mp h₁
  exact ⟨w₂, _, s₁, rfl, h₂⟩

theorem peel_str {x : String}
    (h : (w, s', c') ∈ (Regex.cat (.str x :: rs)).run pos s c) :
    ∃ w' pos' s₁, w = x.toList ++ w' ∧ (w', s', c') ∈ (Regex.cat rs).run pos' s₁ c := by
  rw [Regex.cat_cons, run_seq_iff] at h
  obtain ⟨w₁, w₂, s₁, c₁, h₁, h₂, rfl⟩ := h
  obtain ⟨rfl, -, rfl⟩ := run_str_iff.mp h₁
  exact ⟨w₂, _, s₁, rfl, h₂⟩

theorem peel_cls {ranges : List (Char × Char)}
    (h : (w, s', c') ∈ (Regex.cat (.cls ranges :: rs)).run pos s c) :
    ∃ x w' pos' s₁, w = x :: w' ∧ inRanges ranges x = true ∧
      (w', s', c') ∈ (Regex.cat rs).run pos' s₁ c := by
  rw [Regex.cat_cons, run_seq_iff] at h
  obtain ⟨w₁, w₂, s₁, c₁, h₁, h₂, rfl⟩ := h
  obtain ⟨x, hx, rfl, -, rfl⟩ := run_cls_iff.mp h₁
  exact ⟨x, w₂, _, s₁, rfl, hx, h₂⟩

theorem peel_dot
    (h : (w, s', c') ∈ (Regex.cat (.dot :: rs)).run pos s c) :
    ∃ x w' pos' s₁, w = x :: w' ∧ x ≠ '\n' ∧
      (w', s', c') ∈ (Regex.cat rs).run pos' s₁ c := by
  rw [Regex.cat_cons, run_seq_iff] at h
  obtain ⟨w₁, w₂, s₁, c₁, h₁, h₂, rfl⟩ := h
  obtain ⟨x, hx, rfl, -, rfl⟩ := run_dot_iff.mp h₁
  exact ⟨x, w₂, _, s₁, rfl, hx, h₂⟩

theorem peel_rep_cls {ranges : List (Char × Char)} {n : Nat}
    (h : (w, s', c') ∈ (Regex.cat (.rep n (.cls ranges) :: rs)).run pos s c) :
    ∃ u w' pos' s₁, w = u ++ w' ∧ u.length = n ∧ (∀ x ∈ u, inRanges ranges x = true) ∧
      (w', s', c') ∈ (Regex.cat rs).run pos' s₁ c := by
  rw [Regex.cat_cons, run_seq_iff] at h
  obtain ⟨w₁, w₂, s₁, c₁, h₁, h₂, rfl⟩ := h
  obtain ⟨hl, hu, -, rfl⟩ := (run_rep_cls_iff ranges n).mp h₁
  exact ⟨w₁, w₂, _, s₁, rfl, hl, hu, h₂⟩

theorem peel_plus_cls {ranges : List (Char × Char)}
    (h : (w, s', c') ∈ (Regex.cat (Regex.plus (.cls ranges) :: rs)).run pos s c) :
    ∃ u w' pos' s₁, w = u ++ w' ∧ u ≠ [] ∧ (∀ x ∈ u, inRanges ranges x = true) ∧
      (w', s', c') ∈ (Regex.cat rs).run pos' s₁ c := by
  rw [Regex.cat_cons, run_seq_iff] at h
  obtain ⟨w₁, w₂, s₁, c₁, h₁, h₂, rfl⟩ := h
  obtain ⟨hl, hu, -, rfl⟩ := run_plus_cls_iff.mp h₁
  exact ⟨w₁, w₂, _, s₁, rfl, hl, hu, h₂⟩

theorem peel_alt_str {x y : String}
    (h : (w, s', c') ∈ (Regex.cat (.alt (.str x) (.str y) :: rs)).run pos s c) :
    ∃ e : String, ∃ w' pos' s₁, (e = x ∨ e = y) ∧ w = e.toList ++ w' ∧
      (w', s', c') ∈ (Regex.cat rs).run pos' s₁ c := by
  rw [Regex.cat_cons, run_seq_iff] at h
  obtain ⟨w₁, w₂, s₁, c₁, h₁, h₂, rfl⟩ := h
  rcases mem_run_alt.mp h₁ with h₁ | h₁
  · obtain ⟨rfl, -, rfl⟩ := run_str_iff.mp h₁
    exact ⟨x, w₂, _, s₁, Or.inl rfl, rfl, h₂⟩
  · obtain ⟨rfl, -, rfl⟩ := run_str_iff.mp h₁
    exact ⟨y, w₂, _, s₁, Or.inr rfl, rfl, h₂⟩

theorem peel_bol
    (h : (w, s', c') ∈ (Regex.cat (.bol :: rs)).run pos s c) :
    ∃ pos' s₁, (w, s', c') ∈ (Regex.cat rs).run pos' s₁ c := by
  rw [Regex.cat_cons, run_seq_iff] at h
  obtain ⟨w₁, w₂, s₁, c₁, h₁, h₂, rfl⟩ := h
  obtain ⟨-, rfl, -, rfl⟩ := run_bol_iff.mp h₁
  exact ⟨_, s₁, h₂⟩

theorem peel_nil (h : (w, s', c') ∈ (Regex.cat []).run pos s c) : w = [] := by
  rw [Regex.cat_nil, run_empty_iff] at h
  exact h.1

end Peel

/-- The text before the client IP: the priority tag, a timestamp, the cache
host, the process tag with its pid, each followed by a whitespace character. -/
theorem logHead_sound {pos : Nat} {s s' : List Char} {c c' : Caps} {w : List Char}
    (h : (w, s', c') ∈ (Regex.cat
      [ .bol, .str "<134>", .rep 4 digit, .lit '-', .rep 2 digit, .lit '-', .rep 2 digit,
        .lit 'T', .rep 2 digit, .lit ':', .rep 2 digit, .lit ':', .rep 2 digit, .lit 'Z',
        space, .str "cache-", .rep 3 (.cls [('a', 'z')]), .rep 4 digit,
        space, .str "downloads", .lit '[', digit.plus, .lit ']', .lit ':', space ]).run
        pos s c) :
    ∃ (ts host pid : List Char) (w₁ w₂ w₃ : Char),
      w = "<134>".toList ++ ts ++ [w₁] ++ host ++ [w₂] ++ "downloads[".toList ++ pid ++
        "]:".toList ++ [w₃] ∧
      inRanges [('\t', '\n'), ('\x0c', '\r'), (' ', ' ')] w₁ = true ∧
      inRanges [('\t', '\n'), ('\x0c', '\r'), (' ', ' ')] w₂ = true ∧
      inRanges [('\t', '\n'), ('\x0c', '\r'), (' ', ' ')] w₃ = true := by
  obtain ⟨_, _, h1⟩ := peel_bol h
  obtain ⟨_, _, _, rfl, h2⟩ := peel_str h1
  obtain ⟨yr, _, _, _, rfl, -, -, h3⟩ := peel_rep_cls h2
  obtain ⟨_, _, _, rfl, h4⟩ := peel_lit h3
  obtain ⟨mo, _, _, _, rfl, -, -, h5⟩ := peel_rep_cls h4
  obtain ⟨_, _, _, rfl, h6⟩ := peel_lit h5
  obtain ⟨dy, _, _, _, rfl, -, -, h7⟩ := peel_rep_cls h6
  obtain ⟨_, _, _, rfl, h8⟩ := peel_lit h7
  obtain ⟨hh, _, _, _, rfl, -, -, h9⟩ := peel_rep_cls h8
  obtain ⟨_, _, _, rfl, h10⟩ := peel_lit h9
  obtain ⟨mi, _, _, _, rfl, -, -, h11⟩ := peel_rep_cls h10
  obtain ⟨_, _, _, rfl, h12⟩ := peel_lit h11
  obtain ⟨se, _, _, _, rfl, -, -, h13⟩ := peel_rep_cls h12
  obtain ⟨_, _, _, rfl, h14⟩ := peel_lit h13
  obtain ⟨w₁, _, _, _, rfl, hw₁, h15⟩ := peel_cls h14
  obtain ⟨_, _, _, rfl, h16⟩ := peel_str h15
  obtain ⟨pop, _, _, _, rfl, -, -, h17⟩ := peel_rep_cls h16
  obtain ⟨num, _, _, _, rfl, -, -, h18⟩ := peel_rep_cls h17
  obtain ⟨w₂, _, _, _, rfl, hw₂, h19⟩ := peel_cls h18
  obtain ⟨_, _, _, rfl, h20⟩ := peel_str h19
  obtain ⟨_, _, _, rfl, h21⟩ := peel_lit h20
  obtain ⟨pid, _, _, _, rfl, -, -, h22⟩ := peel_plus_cls h21
  obtain ⟨_, _, _, rfl, h23⟩ := peel_lit h22
  obtain ⟨_, _, _, rfl, h24⟩ := peel_lit h23
  obtain ⟨w₃, _, _, _, rfl, hw₃, h25⟩ := peel_cls h24
  have := peel_nil h25
  subst this
  refine ⟨yr ++ '-' :: (mo ++ '-' :: (dy ++ 'T' :: (hh ++ ':' :: (mi ++ ':' :: (se ++ ['Z']))))),
    "cache-".toList ++ (pop ++ num), pid, w₁, w₂, w₃, ?_, hw₁, hw₂, hw₃⟩
  simp

theorem logMid_sound {pos : Nat} {s s' : List Char} {c c' : Caps} {w : List Char}
    (h : (w, s', c') ∈ (Regex.cat
      [ space, .str "GMT", space, .lit '/', .alt (.str "staging") (.str "production"),
        .dot, .str "s3", .dot, .str "rubygems", .dot, .str "org/gems/" ]).run pos s c) :
    ∃ (env : String) (w₅ w₆ c₁ c₂ c₃ : Char),
      w = [w₅] ++ "GMT".toList ++ [w₆] ++ "/".toList ++ env.toList ++ [c₁] ++ "s3".toList ++
        [c₂] ++ "rubygems".toList ++ [c₃] ++ "org/gems/".toList ∧
      (env = "staging" ∨ env = "production") ∧
      inRanges [('\t', '\n'), ('\x0c', '\r'), (' ', ' ')] w₅ = true ∧
      inRanges [('\t', '\n'), ('\x0c', '\r'), (' ', ' ')] w₆ = true ∧
      c₁ ≠ '\n' ∧ c₂ ≠ '\n' ∧ c₃ ≠ '\n' := by
  obtain ⟨w₅, _, _, _, rfl, hw₅, h1⟩ := peel_cls h
  obtain ⟨_, _, _, rfl, h2⟩ := peel_str h1
  obtain ⟨w₆, _, _, _, rfl, hw₆, h3⟩ := peel_cls h2
  obtain ⟨_, _, _, rfl, h4⟩ := peel_lit h3
  obtain ⟨env, _, _, _, henv, rfl, h5⟩ := peel_alt_str h4
  obtain ⟨c₁, _, _, _, rfl, hc₁, h6⟩ := peel_dot h5
  obtain ⟨_, _, _, rfl, h7⟩ := peel_str h6
  obtain ⟨c₂, _, _, _, rfl, hc₂, h8⟩ := peel_dot h7
  obtain ⟨_, _, _, rfl, h9⟩ := peel_str h8
  obtain ⟨c₃, _, _, _, rfl, hc₃, h10⟩ := peel_dot h9
  obtain ⟨_, _, _, rfl, h11⟩ := peel_str h10
  have := peel_nil h11
  subst this
  exact ⟨env, w₅, w₆, c₁, c₂, c₃, by simp, henv, hw₅, hw₆, hc₁, hc₂, hc₃⟩

theorem logPost_sound {pos : Nat} {s s' : List Char} {c c' : Caps} {w : List Char}
    (h : (w, s', c') ∈ (Regex.cat
      [ .lit '.', .str "gem", space, .rep 3 digit, space ]).run pos s c) :
    ∃ (status : List Char) (w₇ w₈ : Char),
      w = ".gem".toList ++ [w₇] ++ status ++ [w₈] ∧ status.length = 3 ∧
      (∀ x ∈ status, inRanges [('0', '9')] x = true) ∧
      inRanges [('\t', '\n'), ('\x0c', '\r'), (' ', ' ')] w₇ = true ∧
      inRanges [('\t', '\n'), ('\x0c', '\r'), (' ', ' ')] w₈ = true := by
  obtain ⟨_, _, _, rfl, h1⟩ := peel_lit h
  obtain ⟨_, _, _, rfl, h2⟩ := peel_str h1
  obtain ⟨w₇, _, _, _, rfl, hw₇, h3⟩ := peel_cls h2
  obtain ⟨status, _, _, _, rfl, hl, hd, h4⟩ := peel_rep_cls h3
  obtain ⟨w₈, _, _, _, rfl, hw₈, h5⟩ := peel_cls h4
  have := peel_nil h5
  subst this
  exact ⟨status, w₇, w₈, by simp, hl, hd, hw₇, hw₈⟩

theorem logSep_sound {pos : Nat} {s s' : List Char} {c c' : Caps} {w : List Char}
    (h : (w, s', c') ∈ (Regex.cat [ space ]).run pos s c) :
    ∃ w₄ : Char, w = [w₄] ∧
      inRanges [('\t', '\n'), ('\x0c', '\r'), (' ', ' ')] w₄ = true := by
  obtain ⟨w₄, _, _, _, rfl, hw₄, h1⟩ := peel_cls h
  have := peel_nil h1
  subst this
  exact ⟨w₄, rfl, hw₄⟩

theorem inRanges_space {x : Char}
    (h : inRanges [('\t', '\n'), ('\x0c', '\r'), (' ', ' ')] x = true) :
    x ∈ ['\t', '\n', '\x0c', '\r', ' '] := by
  have e : x = Char.ofNat x.toNat := (Char.ofNat_toNat x).symm
  simp only [inRanges, List.any_cons, List.any_nil, Bool.or_false, Bool.or_eq_true,
    Bool.and_eq_true, decide_eq_true_eq] at h
  have h9 : '\t'.toNat = 9 := rfl
  have h10 : '\n'.toNat = 10 := rfl
  have h12 : '\x0c'.toNat = 12 := rfl
  have h13 : '\r'.toNat = 13 := rfl
  have h32 : ' '.toNat = 32 := rfl
  rw [h9, h10, h12, h13, h32] at h
  have : x.toNat = 9 ∨ x.toNat = 10 ∨ x.toNat = 12 ∨ x.toNat = 13 ∨ x.toNat = 32 := by omega
  rcases this with h | h | h | h | h <;> rw [e, h] <;> decide

theorem inRanges_digit {x : Char} (h : inRanges [('0', '9')] x = true) :
    x.isDigit = true := by
  simp only [inRanges, List.any_cons, List.any_nil, Bool.or_false,
    Bool.and_eq_true, decide_eq_true_eq] at h
  have h0 : '0'.toNat = 48 := rfl
  have h9 : '9'.toNat = 57 := rfl
  rw [h0, h9] at h
  simp only [Char.isDigit, Bool.and_eq_true, decide_eq_true_eq, ge_iff_le]
  constructor
  · show (48 : UInt32).toNat ≤ x.val.toNat
    exact h.1
  · show x.val.toNat ≤ (57 : UInt32).toNat
    exact h.2

/-- The shape of every text `LogRegex` matches, with its four captures. -/
theorem search_LogRegex_shape (s : List Char) (caps : Caps)
    (h : search LogRegex 0 s = some caps) :
    ∃ (ip date tok tail ts host pid status : List Char) (env : String)
      (w₁ w₂ w₃ w₄ w₅ w₆ w₇ w₈ c₁ c₂ c₃ : Char),
      caps = [s, ip, date, tok, tail] ∧
      s = "<134>".toList ++ ts ++ [w₁] ++ host ++ [w₂] ++ "downloads[".toList ++ pid ++
        "]:".toList ++ [w₃] ++ ip ++ [w₄] ++ date ++ [w₅] ++ "GMT".toList ++ [w₆] ++
        "/".toList ++ env.toList ++ [c₁] ++ "s3".toList ++ [c₂] ++ "rubygems".toList ++
        [c₃] ++ "org/gems/".toList ++ tok ++ ".gem".toList ++ [w₇] ++ status ++ [w₈] ++
        tail ∧
      (env = "staging" ∨ env = "production") ∧
      status.length = 3 ∧ (∀ x ∈ status, inRanges [('0', '9')] x = true) ∧
      (∀ x ∈ [w₁, w₂, w₃, w₄, w₅, w₆, w₇, w₈],
        inRanges [('\t', '\n'), ('\x0c', '\r'), (' ', ' ')] x = true) ∧
      c₁ ≠ '\n' ∧ c₂ ≠ '\n' ∧ c₃ ≠ '\n' ∧
      (∀ x ∈ date, x ≠ '\n') ∧ (∀ x ∈ tok, x ≠ '\n') ∧ (∀ x ∈ tail, x ≠ '\n') := by
  rw [search_bol LogRegex _ LogRegex_re, ← LogRegex_re] at h
  simp only [Option.map_eq_some'] at h
  obtain ⟨⟨w, s', c'⟩, ht, rfl⟩ := h
  have hm := List.mem_of_mem_head? ht
  have hw := run_text hm
  clear ht
  rw [LogRegex_blocks] at hm
  obtain ⟨b₁, ip, r₁, s₁, t₁, hb₁, -, hm₁, rfl⟩ := run_block_group hm rfl rfl
  obtain ⟨b₂, date, r₂, s₂, t₂, hb₂, hdate, hm₂, rfl⟩ := run_block_group hm₁ rfl rfl
  obtain ⟨b₃, tok, r₃, s₃, t₃, hb₃, htok, hm₃, rfl⟩ := run_block_group hm₂ rfl rfl
  obtain ⟨b₄, tail, r₄, s₄, t₄, hb₄, htail, hm₄, rfl⟩ := run_block_group hm₃ rfl rfl
  clear hm hm₁ hm₂ hm₃
  simp only [Regex.cat, run_seq_iff, run_eol_iff, run_empty_iff] at hm₄
  obtain ⟨_, _, _, _, ⟨-, rfl, rfl, rfl⟩, ⟨rfl, rfl, rfl⟩, rfl⟩ := hm₄
  simp only [List.append_nil] at hw
  obtain ⟨ts, host, pid, w₁, w₂, w₃, rfl, hw₁, hw₂, hw₃⟩ := logHead_sound hb₁
  obtain ⟨w₄, rfl, hw₄⟩ := logSep_sound hb₂
  obtain ⟨env, w₅, w₆, c₁, c₂, c₃, rfl, henv, hw₅, hw₆, hc₁, hc₂, hc₃⟩ := logMid_sound hb₃
  obtain ⟨status, w₇, w₈, rfl, hl, hd, hw₇, hw₈⟩ := logPost_sound hb₄
  refine ⟨ip, date, tok, tail, ts, host, pid, status, env, w₁, w₂, w₃, w₄, w₅, w₆, w₇, w₈,
    c₁, c₂, c₃, ?_, ?_, henv, hl, hd, ?_, hc₁, hc₂, hc₃, (run_star_dot_iff.mp hdate).2.1,
    (run_star_dot_iff.mp htok).2.1, (run_star_dot_iff.mp htail).2.1⟩
  · rw [hw]
    simp [LogRegex]
  · rw [hw]
    simp
  · intro x hx
    simp only [List.mem_cons, List.mem_singleton, List.not_mem_nil, or_false] at hx
    rcases hx with rfl | rfl | rfl | rfl | rfl | rfl | rfl | rfl <;> assumption

/-- C15 (as stated, refuted): `LogRegex` matches a line whose date and "GMT"
are separated by a tab, and a line whose host name is written
"production-s3-rubygems-org"; neither line is the template of the claim filled
in with its captures, for any timestamp, host, pid, environment and status. -/
theorem LogRegex_not_template :
    (LogRegex.findAllStringSubmatchHead
      "<134>2015-08-24T12:44:59Z cache-lhr6335 downloads[332933]: 54.72.251.121 Mon, 24 Aug 2015 12:44:59\tGMT /production.s3.rubygems.org/gems/a-1.gem 200 -" 4 =
      some ["<134>2015-08-24T12:44:59Z cache-lhr6335 downloads[332933]: 54.72.251.121 Mon, 24 Aug 2015 12:44:59\tGMT /production.s3.rubygems.org/gems/a-1.gem 200 -",
        "54.72.251.121", "Mon, 24 Aug 2015 12:44:59", "a-1", "-"] ∧
     ¬ ∃ ts host pid env status : String,
      "<134>2015-08-24T12:44:59Z cache-lhr6335 downloads[332933]: 54.72.251.121 Mon, 24 Aug 2015 12:44:59\tGMT /production.s3.rubygems.org/gems/a-1.gem 200 -" =
        "<134>" ++ ts ++ " " ++ host ++ " downloads[" ++ pid ++ "]: " ++ "54.72.251.121" ++
          " " ++ "Mon, 24 Aug 2015 12:44:59" ++ " GMT /" ++ env ++ ".s3.rubygems.org/gems/" ++
          "a-1" ++ ".gem " ++ status ++ " " ++ "-") ∧
    (LogRegex.findAllStringSubmatchHead
      "<134>2015-08-24T12:44:59Z cache-lhr6335 downloads[332933]: 54.72.251.121 Mon, 24 Aug 2015 12:44:59 GMT /production-s3-rubygems-org/gems/a-1.gem 200 -" 4 =
      some ["<134>2015-08-24T12:44:59Z cache-lhr6335 downloads[332933]: 54.72.251.121 Mon, 24 Aug 2015 12:44:59 GMT /production-s3-rubygems-org/gems/a-1.gem 200 -",
        "54.72.251.121", "Mon, 24 Aug 2015 12:44:59", "a-1", "-"] ∧
     ¬ ∃ ts host pid env status : String,
      "<134>2015-08-24T12:44:59Z cache-lhr6335 downloads[332933]: 54.72.251.121 Mon, 24 Aug 2015 12:44:59 GMT /production-s3-rubygems-org/gems/a-1.gem 200 -" =
        "<134>" ++ ts ++ " " ++ host ++ " downloads[" ++ pid ++ "]: " ++ "54.72.251.121" ++
          " " ++ "Mon, 24 Aug 2015 12:44:59" ++ " GMT /" ++ env ++ ".s3.rubygems.org/gems/" ++
          "a-1" ++ ".gem " ++ status ++ " " ++ "-") := by
  refine ⟨⟨by decide!, ?_⟩, ⟨by decide!, ?_⟩⟩
  · rintro ⟨ts, host, pid, env, status, h⟩
    have hin : " GMT /".toList <:+:
        "<134>2015-08-24T12:44:59Z cache-lhr6335 downloads[332933]: 54.72.251.121 Mon, 24 Aug 2015 12:44:59\tGMT /production.s3.rubygems.org/gems/a-1.gem 200 -".toList := by
      rw [h]
      refine ⟨("<134>" ++ ts ++ " " ++ host ++ " downloads[" ++ pid ++ "]: " ++ "54.72.251.121"
        ++ " " ++ "Mon, 24 Aug 2015 12:44:59").toList,
        (env ++ ".s3.rubygems.org/gems/" ++ "a-1" ++ ".gem " ++ status ++ " " ++ "-").toList,
        ?_⟩
      simp only [String.toList, String.data_append, List.append_assoc]
    exact absurd hin (by decide!)
  · rintro ⟨ts, host, pid, env, status, h⟩
    have hin : ".s3.rubygems.org/gems/".toList <:+:
        "<134>2015-08-24T12:44:59Z cache-lhr6335 downloads[332933]: 54.72.251.121 Mon, 24 Aug 2015 12:44:59 GMT /production-s3-rubygems-org/gems/a-1.gem 200 -".toList := by
      rw [h]
      refine ⟨("<134>" ++ ts ++ " " ++ host ++ " downloads[" ++ pid ++ "]: " ++ "54.72.251.121"
        ++ " " ++ "Mon, 24 Aug 2015 12:44:59" ++ " GMT /" ++ env).toList,
        ("a-1" ++ ".gem " ++ status ++ " " ++ "-").toList, ?_⟩
      simp only [String.toList, String.data_append, List.append_assoc]
    exact absurd hin (by decide!)

/-- C15 (amended): every line `LogRegex` matches is the template filled in with
its captures, where each separator is one whitespace character (tab, newline,
form feed, carriage return or space) and one character other than a newline
stands before "s3", before "rubygems" and before "org": there are a timestamp, a
host, a pid, an environment "staging" or "production" and a 3-digit status such
that the line is "<134>" timestamp ws host ws "downloads[" pid "]:" ws ip ws date
ws "GMT" ws "/" environment c "s3" c "rubygems" c "org/gems/" fullName ".gem" ws
status ws tail. -/
theorem LogRegex_roundtrip (line : String) (ps : List String)
    (h : LogRegex.findAllStringSubmatchHead line 4 = some ps) :
    ∃ (ip date fullName tail ts host pid env status : String)
      (w₁ w₂ w₃ w₄ w₅ w₆ w₇ w₈ c₁ c₂ c₃ : Char),
      ps = [line, ip, date, fullName, tail] ∧
      (env = "staging" ∨ env = "production") ∧
      status.length = 3 ∧ (∀ x ∈ status.toList, x.isDigit = true) ∧
      (∀ x ∈ [w₁, w₂, w₃, w₄, w₅, w₆, w₇, w₈], x ∈ ['\t', '\n', '\x0c', '\r', ' ']) ∧
      c₁ ≠ '\n' ∧ c₂ ≠ '\n' ∧ c₃ ≠ '\n' ∧
      line = "<134>" ++ ts ++ String.singleton w₁ ++ host ++ String.singleton w₂ ++
        "downloads[" ++ pid ++ "]:" ++ String.singleton w₃ ++ ip ++ String.singleton w₄ ++
        date ++ String.singleton w₅ ++ "GMT" ++ String.singleton w₆ ++ "/" ++ env ++
        String.singleton c₁ ++ "s3" ++ String.singleton c₂ ++ "rubygems" ++
        String.singleton c₃ ++ "org/gems/" ++ fullName ++ ".gem" ++ String.singleton w₇ ++
        status ++ String.singleton w₈ ++ tail := by
  rw [find_eq _ _ _ (by decide)] at h
  simp only [Option.map_eq_some'] at h
  obtain ⟨caps, hc, rfl⟩ := h
  obtain ⟨ip, date, tok, tail, ts, host, pid, status, env, w₁, w₂, w₃, w₄, w₅, w₆, w₇, w₈,
    c₁, c₂, c₃, rfl, hs, henv, hl, hd, hws, hc₁, hc₂, hc₃, -, -, -⟩ :=
    search_LogRegex_shape _ _ hc
  refine ⟨⟨ip⟩, ⟨date⟩, ⟨tok⟩, ⟨tail⟩, ⟨ts⟩, ⟨host⟩, ⟨pid⟩, env, ⟨status⟩, w₁, w₂, w₃, w₄, w₅,
    w₆, w₇, w₈, c₁, c₂, c₃, by simp, henv, hl, fun x hx => inRanges_digit (hd x hx),
    fun x hx => inRanges_space (hws x hx), hc₁, hc₂, hc₃, ?_⟩
  apply String.ext
  have e : ∀ x : Char, (String.singleton x).data = [x] := fun _ => rfl
  simp only [String.data_append, e]
  simpa [String.toList, List.append_assoc] using hs

/-- C15 (amended), at the second documented sample line. -/
theorem LogRegex_roundtrip_witness :
    ∃ (ip date fullName tail ts host pid env status : String)
      (w₁ w₂ w₃ w₄ w₅ w₆ w₇ w₈ c₁ c₂ c₃ : Char),
      [sampleLine₂, "54.72.251.121", "Mon, 24 Aug 2015 12:44:59", "multi_xml-0.5.5",
        "Ruby, RubyGems/2.0.14 x86_64-linux Ruby/2.0.0 (2015-04-13 patchlevel 645)"] =
        [sampleLine₂, ip, date, fullName, tail] ∧
      (env = "staging" ∨ env = "production") ∧
      status.length = 3 ∧ (∀ x ∈ status.toList, x.isDigit = true) ∧
      (∀ x ∈ [w₁, w₂, w₃, w₄, w₅, w₆, w₇, w₈], x ∈ ['\t', '\n', '\x0c', '\r', ' ']) ∧
      c₁ ≠ '\n' ∧ c₂ ≠ '\n' ∧ c₃ ≠ '\n' ∧
      sampleLine₂ = "<134>" ++ ts ++ String.singleton w₁ ++ host ++ String.singleton w₂ ++
        "downloads[" ++ pid ++ "]:" ++ String.singleton w₃ ++ ip ++ String.singleton w₄ ++
        date ++ String.singleton w₅ ++ "GMT" ++ String.singleton w₆ ++ "/" ++ env ++
        String.singleton c₁ ++ "s3" ++ String.singleton c₂ ++ "rubygems" ++
        String.singleton c₃ ++ "org/gems/" ++ fullName ++ ".gem" ++ String.singleton w₇ ++
        status ++ String.singleton w₈ ++ tail :=
  LogRegex_roundtrip sampleLine₂ _ (by decide!)

/-- C16: the outcome of `parseLogLine` depends only on the file name and the
tail that `LogRegex` captures: two lines it matches with the same file name and
the same tail give the same result (the same `Download`, hence the same commands
for any date), whatever the rest of the lines is. -/
theorem parseLogLine_depends_on_name_and_tail (line₁ line₂ : String) (ps₁ ps₂ : List String)
    (h₁ : LogRegex.findAllStringSubmatchHead line₁ 4 = some ps₁)
    (h₂ : LogRegex.findAllStringSubmatchHead line₂ 4 = some ps₂)
    (hname : ps₁[3]? = ps₂[3]?) (htail : ps₁[4]? = ps₂[4]?) :
    parseLogLine line₁ = parseLogLine line₂ ∧
    ∀ d₁ d₂ e₁ e₂, parseLogLine line₁ = .ok (d₁, e₁) → parseLogLine line₂ = .ok (d₂, e₂) →
      d₁ = d₂ ∧ ∀ t, save d₁ t = save d₂ t := by
  have key : parseLogLine line₁ = parseLogLine line₂ := by
    obtain ⟨ip₁, date₁, tok₁, tail₁, rfl, -, -⟩ := LogRegex_find_sound line₁ ps₁ h₁
    obtain ⟨ip₂, date₂, tok₂, tail₂, rfl, -, -⟩ := LogRegex_find_sound line₂ ps₂ h₂
    simp only [List.getElem?_cons_succ, List.getElem?_cons_zero, Option.some.injEq]
      at hname htail
    subst hname htail
    cases hn : NameRegex.findAllStringSubmatchHead tok₁ 1 with
    | none =>
      rw [parseLogLine_panic_name _ _ _ _ _ _ h₁ hn, parseLogLine_panic_name _ _ _ _ _ _ h₂ hn]
    | some nps =>
      obtain ⟨a, v, -, rfl⟩ := NameRegex_find_sound tok₁ nps hn
      rw [parseLogLine_of_parts _ _ _ _ _ _ _ _ _ h₁ hn,
        parseLogLine_of_parts _ _ _ _ _ _ _ _ _ h₂ hn]
  refine ⟨key, ?_⟩
  intro d₁ d₂ e₁ e₂ hd₁ hd₂
  rw [key, hd₂] at hd₁
  simp only [Except.ok.injEq, Prod.mk.injEq] at hd₁
  refine ⟨hd₁.1.symm, fun t => by rw [hd₁.1]⟩

/-- C16, at two lines that differ in timestamp, cache host, pid, client IP,
request date, environment and status. -/
theorem parseLogLine_depends_on_name_and_tail_witness :
    parseLogLine
      "<134>2015-08-24T12:44:59Z cache-lhr6335 downloads[332933]: 54.72.251.121 Mon, 24 Aug 2015 12:44:59 GMT /production.s3.rubygems.org/gems/a-1.gem 200 -" =
    parseLogLine
      "<134>2016-01-02T03:04:05Z cache-iad2134 downloads[7]: 8.8.8.8 Sat, 02 Jan 2016 03:04:05 GMT /staging.s3.rubygems.org/gems/a-1.gem 304 -" :=
  (parseLogLine_depends_on_name_and_tail
    "<134>2015-08-24T12:44:59Z cache-lhr6335 downloads[332933]: 54.72.251.121 Mon, 24 Aug 2015 12:44:59 GMT /production.s3.rubygems.org/gems/a-1.gem 200 -"
    "<134>2016-01-02T03:04:05Z cache-iad2134 downloads[7]: 8.8.8.8 Sat, 02 Jan 2016 03:04:05 GMT /staging.s3.rubygems.org/gems/a-1.gem 304 -"
    ["<134>2015-08-24T12:44:59Z cache-lhr6335 downloads[332933]: 54.72.251.121 Mon, 24 Aug 2015 12:44:59 GMT /production.s3.rubygems.org/gems/a-1.gem 200 -",
      "54.72.251.121", "Mon, 24 Aug 2015 12:44:59", "a-1", "-"]
    ["<134>2016-01-02T03:04:05Z cache-iad2134 downloads[7]: 8.8.8.8 Sat, 02 Jan 2016 03:04:05 GMT /staging.s3.rubygems.org/gems/a-1.gem 304 -",
      "8.8.8.8", "Sat, 02 Jan 2016 03:04:05", "a-1", "-"]
    (by decide!) (by decide!) (by decide) (by decide)).1

/-- C18 (the code at a failing input): the first user agent documented above
`UserAgentRegex` is not matched by it, so a line with that tail is parsed into a
`Download` whose four client-metadata fields are empty. -/
theorem parseLogLine_documented_user_agent_unmatched :
    UserAgentRegex.MatchString
      "RubyGems/1.8.17 x86-linux Ruby/1.8.7 (2010-12-23 patchlevel 330)" = false ∧
    parseLogLine
      "<134>2015-08-24T12:44:59Z cache-lhr6335 downloads[332933]: 54.72.251.121 Mon, 24 Aug 2015 12:44:59 GMT /production.s3.rubygems.org/gems/a-1.gem 200 RubyGems/1.8.17 x86-linux Ruby/1.8.7 (2010-12-23 patchlevel 330)" =
      .ok (⟨"a", "a-1", "", "", "", ""⟩, none) := by
  decide!

/-! ## Claims about the keys -/

theorem lit_ne_of_head {a b : String} (y : String) (p q : List Char) (k : Nat)
    (ha : a.toList = p) (hb : b.toList = q) (hk : p.take k ≠ q.take k)
    (hq : k ≤ q.length) : a ≠ b ++ y := by
  intro h
  apply hk
  have h' : a.toList = (b ++ y).toList := by rw [← h]
  simp only [String.toList, String.data_append] at h' ha hb
  rw [ha, hb] at h'
  have := congrArg (List.take k) h'
  rwa [List.take_append_of_le_length hq] at this

theorem mem_save (d : Download) (t : String) (m : Mutation) (h : m ∈ save d t) :
    m = .Incr "downloads" ∨ m = .Incr ("downloads:rubygem:" ++ d.GemName) ∨
    m = .Incr ("downloads:version:" ++ d.FullGemName) ∨
    m = .ZIncrBy ("downloads:today:" ++ t) 1 d.FullGemName ∨
    m = .ZIncrBy "downloads:all" 1 d.FullGemName ∨
    m = .HIncrBy ("downloads:version_history:" ++ d.FullGemName) t 1 ∨
    m = .HIncrBy ("downloads:rubygem_history:" ++ d.GemName) t 1 ∨
    m = .HIncrBy ("usage:rubygem_version:" ++ t) d.RubygemsVersion 1 ∨
    m = .HIncrBy ("usage:ruby_platform:" ++ t) d.RubygemsPlatform 1 ∨
    m = .HIncrBy ("usage:ruby_version:" ++ t) d.RubyVersion 1 ∨
    m = .HIncrBy ("usage:ruby_release:" ++ t) d.RubyRelease 1 := by
  simp only [save, List.mem_append, List.mem_cons, List.mem_singleton, List.not_mem_nil,
    or_false] at h
  rcases h with ((((h | h | h | h | h | h | h) | h) | h) | h) | h
  · exact Or.inl h
  · exact Or.inr (Or.inl h)
  · exact Or.inr (Or.inr (Or.inl h))
  · exact Or.inr (Or.inr (Or.inr (Or.inl h)))
  · exact Or.inr (Or.inr (Or.inr (Or.inr (Or.inl h))))
  · exact Or.inr (Or.inr (Or.inr (Or.inr (Or.inr (Or.inl h)))))
  · exact Or.inr (Or.inr (Or.inr (Or.inr (Or.inr (Or.inr (Or.inl h))))))
  · split at h
    · simp only [List.mem_singleton] at h
      exact Or.inr (Or.inr (Or.inr (Or.inr (Or.inr (Or.inr (Or.inr (Or.inl h)))))))
    · simp at h
  · split at h
    · simp only [List.mem_singleton] at h
      exact Or.inr (Or.inr (Or.inr (Or.inr (Or.inr (Or.inr (Or.inr (Or.inr (Or.inl h))))))))
    · simp at h
  · split at h
    · simp only [List.mem_singleton] at h
      exact Or.inr (Or.inr (Or.inr (Or.inr (Or.inr (Or.inr (Or.inr (Or.inr (Or.inr
        (Or.inl h)))))))))
    · simp at h
  · split at h
    · simp only [List.mem_singleton] at h
      exact Or.inr (Or.inr (Or.inr (Or.inr (Or.inr (Or.inr (Or.inr (Or.inr (Or.inr
        (Or.inr h)))))))))
    · simp at h

/-- C19: no key is used with two data types: whatever the `Download`s and dates
are, two commands of `save` that operate on the same key require the same data
type of it. The counter keys are "downloads", "downloads:rubygem:" ++ GemName and
"downloads:version:" ++ FullGemName; the sorted-set keys are "downloads:today:" ++
date and "downloads:all"; every other key is a hash key. -/
theorem save_key_types (d₁ d₂ : Download) (t₁ t₂ : String) :
    (∀ m₁ ∈ save d₁ t₁, ∀ m₂ ∈ save d₂ t₂, m₁.key = m₂.key → m₁.keyType = m₂.keyType) ∧
    ((save d₁ t₁).filter fun m => decide (m.keyType = .counter)).map Mutation.key =
      ["downloads", "downloads:rubygem:" ++ d₁.GemName,
        "downloads:version:" ++ d₁.FullGemName] ∧
    ((save d₁ t₁).filter fun m => decide (m.keyType = .sortedSet)).map Mutation.key =
      ["downloads:today:" ++ t₁, "downloads:all"] ∧
    (∀ m ∈ save d₁ t₁, m.keyType = .hash →
      m.key ∈ ["downloads:version_history:" ++ d₁.FullGemName,
        "downloads:rubygem_history:" ++ d₁.GemName, "usage:rubygem_version:" ++ t₁,
        "usage:ruby_platform:" ++ t₁, "usage:ruby_version:" ++ t₁,
        "usage:ruby_release:" ++ t₁]) := by
  have nC0Z0 : ∀ y : String, "downloads" ≠ "downloads:today:" ++ y :=
    fun y => lit_ne_of_head y _ _ 10 rfl rfl (by decide) (by decide)
  have nC0Z1 : ("downloads" : String) ≠ "downloads:all" := by decide
  have nC0H0 : ∀ y : String, "downloads" ≠ "downloads:version_history:" ++ y :=
    fun y => lit_ne_of_head y _ _ 10 rfl rfl (by decide) (by decide)
  have nC0H1 : ∀ y : String, "downloads" ≠ "downloads:rubygem_history:" ++ y :=
    fun y => lit_ne_of_head y _ _ 10 rfl rfl (by decide) (by decide)
  have nC0H2 : ∀ y : String, "downloads" ≠ "usage:rubygem_version:" ++ y :=
    fun y => lit_ne_of_head y _ _ 1 rfl rfl (by decide) (by decide)
  have nC0H3 : ∀ y : String, "downloads" ≠ "usage:ruby_platform:" ++ y :=
    fun y => lit_ne_of_head y _ _ 1 rfl rfl (by decide) (by decide)
  have nC0H4 : ∀ y : String, "downloads" ≠ "usage:ruby_version:" ++ y :=
    fun y => lit_ne_of_head y _ _ 1 rfl rfl (by decide) (by decide)
  have nC0H5 : ∀ y : String, "downloads" ≠ "usage:ruby_release:" ++ y :=
    fun y => lit_ne_of_head y _ _ 1 rfl rfl (by decide) (by decide)
  have nC1Z0 : ∀ x y : String, "downloads:rubygem:" ++ x ≠ "downloads:today:" ++ y :=
    fun x y => key_ne_of_head x y _ _ 11 rfl rfl (by decide) (by decide) (by decide)
  have nC1Z1 : ∀ x : String, "downloads:rubygem:" ++ x ≠ "downloads:all" :=
    fun x h => lit_ne_of_head x _ _ 11 rfl rfl (by decide) (by decide) h.symm
  have nC1H0 : ∀ x y : String, "downloads:rubygem:" ++ x ≠ "downloads:version_history:" ++ y :=
    fun x y => key_ne_of_head x y _ _ 11 rfl rfl (by decide) (by decide) (by decide)
  have nC1H1 : ∀ x y : String, "downloads:rubygem:" ++ x ≠ "downloads:rubygem_history:" ++ y :=
    fun x y => key_ne_of_head x y _ _ 18 rfl rfl (by decide) (by decide) (by decide)
  have nC1H2 : ∀ x y : String, "downloads:rubygem:" ++ x ≠ "usage:rubygem_version:" ++ y :=
    fun x y => key_ne_of_head x y _ _ 1 rfl rfl (by decide) (by decide) (by decide)
  have nC1H3 : ∀ x y : String, "downloads:rubygem:" ++ x ≠ "usage:ruby_platform:" ++ y :=
    fun x y => key_ne_of_head x y _ _ 1 rfl rfl (by decide) (by decide) (by decide)
  have nC1H4 : ∀ x y : String, "downloads:rubygem:" ++ x ≠ "usage:ruby_version:" ++ y :=
    fun x y => key_ne_of_head x y _ _ 1 rfl rfl (by decide) (by decide) (by decide)
  have nC1H5 : ∀ x y : String, "downloads:rubygem:" ++ x ≠ "usage:ruby_release:" ++ y :=
    fun x y => key_ne_of_head x y _ _ 1 rfl rfl (by decide) (by decide) (by decide)
  have nC2Z0 : ∀ x y : String, "downloads:version:" ++ x ≠ "downloads:today:" ++ y :=
    fun x y => key_ne_of_head x y _ _ 11 rfl rfl (by decide) (by decide) (by decide)
  have nC2Z1 : ∀ x : String, "downloads:version:" ++ x ≠ "downloads:all" :=
    fun x h => lit_ne_of_head x _ _ 11 rfl rfl (by decide) (by decide) h.symm
  have nC2H0 : ∀ x y : String, "downloads:version:" ++ x ≠ "downloads:version_history:" ++ y :=
    fun x y => key_ne_of_head x y _ _ 18 rfl rfl (by decide) (by decide) (by decide)
  have nC2H1 : ∀ x y : String, "downloads:version:" ++ x ≠ "downloads:rubygem_history:" ++ y :=
    fun x y => key_ne_of_head x y _ _ 11 rfl rfl (by decide) (by decide) (by decide)
  have nC2H2 : ∀ x y : String, "downloads:version:" ++ x ≠ "usage:rubygem_version:" ++ y :=
    fun x y => key_ne_of_head x y _ _ 1 rfl rfl (by decide) (by decide) (by decide)
  have nC2H3 : ∀ x y : String, "downloads:version:" ++ x ≠ "usage:ruby_platform:" ++ y :=
    fun x y => key_ne_of_head x y _ _ 1 rfl rfl (by decide) (by decide) (by decide)
  have nC2H4 : ∀ x y : String, "downloads:version:" ++ x ≠ "usage:ruby_version:" ++ y :=
    fun x y => key_ne_of_head x y _ _ 1 rfl rfl (by decide) (by decide) (by decide)
  have nC2H5 : ∀ x y : String, "downloads:version:" ++ x ≠ "usage:ruby_release:" ++ y :=
    fun x y => key_ne_of_head x y _ _ 1 rfl rfl (by decide) (by decide) (by decide)
  have nZ0H0 : ∀ x y : String, "downloads:today:" ++ x ≠ "downloads:version_history:" ++ y :=
    fun x y => key_ne_of_head x y _ _ 11 rfl rfl (by decide) (by decide) (by decide)
  have nZ0H1 : ∀ x y : String, "downloads:today:" ++ x ≠ "downloads:rubygem_history:" ++ y :=
    fun x y => key_ne_of_head x y _ _ 11 rfl rfl (by decide) (by decide) (by decide)
  have nZ0H2 : ∀ x y : String, "downloads:today:" ++ x ≠ "usage:rubygem_version:" ++ y :=
    fun x y => key_ne_of_head x y _ _ 1 rfl rfl (by decide) (by decide) (by decide)
  have nZ0H3 : ∀ x y : String, "downloads:today:" ++ x ≠ "usage:ruby_platform:" ++ y :=
    fun x y => key_ne_of_head x y _ _ 1 rfl rfl (by decide) (by decide) (by decide)
  have nZ0H4 : ∀ x y : String, "downloads:today:" ++ x ≠ "usage:ruby_version:" ++ y :=
    fun x y => key_ne_of_head x y _ _ 1 rfl rfl (by decide) (by decide) (by decide)
  have nZ0H5 : ∀ x y : String, "downloads:today:" ++ x ≠ "usage:ruby_release:" ++ y :=
    fun x y => key_ne_of_head x y _ _ 1 rfl rfl (by decide) (by decide) (by decide)
  have nZ1H0 : ∀ y : String, "downloads:all" ≠ "downloads:version_history:" ++ y :=
    fun y => lit_ne_of_head y _ _ 11 rfl rfl (by decide) (by decide)
  have nZ1H1 : ∀ y : String, "downloads:all" ≠ "downloads:rubygem_history:" ++ y :=
    fun y => lit_ne_of_head y _ _ 11 rfl rfl (by decide) (by decide)
  have nZ1H2 : ∀ y : String, "downloads:all" ≠ "usage:rubygem_version:" ++ y :=
    fun y => lit_ne_of_head y _ _ 1 rfl rfl (by decide) (by decide)
  have nZ1H3 : ∀ y : String, "downloads:all" ≠ "usage:ruby_platform:" ++ y :=
    fun y => lit_ne_of_head y _ _ 1 rfl rfl (by decide) (by decide)
  have nZ1H4 : ∀ y : String, "downloads:all" ≠ "usage:ruby_version:" ++ y :=
    fun y => lit_ne_of_head y _ _ 1 rfl rfl (by decide) (by decide)
  have nZ1H5 : ∀ y : String, "downloads:all" ≠ "usage:ruby_release:" ++ y :=
    fun y => lit_ne_of_head y _ _ 1 rfl rfl (by decide) (by decide)
  refine ⟨?_, ?_, ?_, ?_⟩
  · intro m₁ h₁ m₂ h₂ hk
    rcases mem_save _ _ _ h₁ with rfl | rfl | rfl | rfl | rfl | rfl | rfl | rfl | rfl | rfl | rfl <;>
    rcases mem_save _ _ _ h₂ with rfl | rfl | rfl | rfl | rfl | rfl | rfl | rfl | rfl | rfl | rfl <;>
    first
    | rfl
    | (exfalso
       simp only [Mutation.key] at hk
       first
       | exact absurd hk (by first | exact nC0Z0 _ | exact nC0Z1 | exact nC0H0 _ | exact nC0H1 _ | exact nC0H2 _ | exact nC0H3 _ | exact nC0H4 _ | exact nC0H5 _ | exact nC1Z0 _ _ | exact nC1Z1 _ | exact nC1H0 _ _ | exact nC1H1 _ _ | exact nC1H2 _ _ | exact nC1H3 _ _ | exact nC1H4 _ _ | exact nC1H5 _ _ | exact nC2Z0 _ _ | exact nC2Z1 _ | exact nC2H0 _ _ | exact nC2H1 _ _ | exact nC2H2 _ _ | exact nC2H3 _ _ | exact nC2H4 _ _ | exact nC2H5 _ _ | exact nZ0H0 _ _ | exact nZ0H1 _ _ | exact nZ0H2 _ _ | exact nZ0H3 _ _ | exact nZ0H4 _ _ | exact nZ0H5 _ _ | exact nZ1H0 _ | exact nZ1H1 _ | exact nZ1H2 _ | exact nZ1H3 _ | exact nZ1H4 _ | exact nZ1H5 _)
       | exact absurd hk.symm (by first | exact nC0Z0 _ | exact nC0Z1 | exact nC0H0 _ | exact nC0H1 _ | exact nC0H2 _ | exact nC0H3 _ | exact nC0H4 _ | exact nC0H5 _ | exact nC1Z0 _ _ | exact nC1Z1 _ | exact nC1H0 _ _ | exact nC1H1 _ _ | exact nC1H2 _ _ | exact nC1H3 _ _ | exact nC1H4 _ _ | exact nC1H5 _ _ | exact nC2Z0 _ _ | exact nC2Z1 _ | exact nC2H0 _ _ | exact nC2H1 _ _ | exact nC2H2 _ _ | exact nC2H3 _ _ | exact nC2H4 _ _ | exact nC2H5 _ _ | exact nZ0H0 _ _ | exact nZ0H1 _ _ | exact nZ0H2 _ _ | exact nZ0H3 _ _ | exact nZ0H4 _ _ | exact nZ0H5 _ _ | exact nZ1H0 _ | exact nZ1H1 _ | exact nZ1H2 _ | exact nZ1H3 _ | exact nZ1H4 _ | exact nZ1H5 _))
  · unfold save
    by_cases h1 : d₁.RubygemsVersion = "" <;> by_cases h2 : d₁.RubygemsPlatform = "" <;>
    by_cases h3 : d₁.RubyVersion = "" <;> by_cases h4 : d₁.RubyRelease = "" <;>
    simp [h1, h2, h3, h4, Mutation.keyType, Mutation.key, List.filter]
  · unfold save
    by_cases h1 : d₁.RubygemsVersion = "" <;> by_cases h2 : d₁.RubygemsPlatform = "" <;>
    by_cases h3 : d₁.RubyVersion = "" <;> by_cases h4 : d₁.RubyRelease = "" <;>
    simp [h1, h2, h3, h4, Mutation.keyType, Mutation.key, List.filter]
  · intro m hm hh
    rcases mem_save _ _ _ hm with rfl | rfl | rfl | rfl | rfl | rfl | rfl | rfl | rfl | rfl | rfl <;>
      simp [Mutation.keyType, Mutation.key] at hh ⊢

/-- C19, at the commands of the second documented sample line on two dates. -/
theorem save_key_types_witness :
    (Mutation.Incr "downloads:version:multi_xml-0.5.5").keyType =
      (Mutation.Incr ("downloads:version:" ++ "multi_xml-0.5.5")).keyType :=
  (save_key_types
    ⟨"multi_xml", "multi_xml-0.5.5", "2.0.14", "x86_64-linux", "2.0.0",
      "2015-04-13 patchlevel 645"⟩
    ⟨"multi_xml", "multi_xml-0.5.5", "", "", "", ""⟩ "2015-08-24" "2015-08-25").1
    (.Incr "downloads:version:multi_xml-0.5.5") (by decide)
    (.Incr ("downloads:version:" ++ "multi_xml-0.5.5")) (by decide) (by decide)

/-! ## Greedy captures: which match is reported -/

/-- The threads of a concatenation, in order: those of the first part, each
continued by those of the second part. -/
theorem run_cat_append (l₁ l₂ : List Regex) :
    ∀ (pos : Nat) (s : List Char) (c : Caps),
      (Regex.cat (l₁ ++ l₂)).run pos s c =
        ((Regex.cat l₁).run pos s c).flatMap fun t₁ =>
          ((Regex.cat l₂).run (pos + t₁.1.length) t₁.2.1 t₁.2.2).map fun t₂ =>
            (t₁.1 ++ t₂.1, t₂.2.1, t₂.2.2) := by
  induction l₁ with
  | nil =>
    intro pos s c
    simp [Regex.cat_nil, run_empty]
  | cons r l ih =>
    intro pos s c
    rw [List.cons_append, Regex.cat_cons, Regex.cat_cons, run_seq, run_seq,
      List.flatMap_assoc]
    congr 1
    funext t₁
    rw [ih, List.map_flatMap, List.flatMap_map]
    congr 1
    funext t₂
    simp [Nat.add_assoc, List.append_assoc, Function.comp]

/-- Among the cuts of a text, listed longest first part first, the first one a
function accepts has a longer first part than no other accepted cut. -/
theorem findSome?_splitsDesc {β : Type} :
    ∀ (s : List Char) (f : List Char × List Char → Option β) (b : β),
      (splitsDesc s).findSome? f = some b →
        ∃ p q, p ++ q = s ∧ f (p, q) = some b ∧
          ∀ p' q', p' ++ q' = s → p.length < p'.length → f (p', q') = none := by
  intro s
  induction s with
  | nil =>
    intro f b h
    simp only [splitsDesc, List.findSome?_cons] at h
    refine ⟨[], [], rfl, ?_, ?_⟩
    · cases hf : f ([], []) with
      | none => simp [hf] at h
      | some y => simpa [hf] using h
    · intro p' q' hpq hlt
      simp only [List.append_eq_nil] at hpq
      rw [hpq.1] at hlt
      exact absurd hlt (Nat.lt_irrefl _)
  | cons x xs ih =>
    intro f b h
    rw [splitsDesc, List.findSome?_append, List.findSome?_map] at h
    cases hfirst : (splitsDesc xs).findSome? (f ∘ fun ws => (x :: ws.1, ws.2)) with
    | some b' =>
      rw [hfirst] at h
      simp only [Option.or_some, Option.some.injEq] at h
      subst h
      obtain ⟨p, q, hpq, hf, hmax⟩ := ih _ _ hfirst
      refine ⟨x :: p, q, by simp [hpq], hf, ?_⟩
      intro p' q' hpq' hlt
      cases p' with
      | nil => simp at hlt
      | cons y ys =>
        simp only [List.cons_append, List.cons.injEq] at hpq'
        obtain ⟨rfl, hys⟩ := hpq'
        exact hmax ys q' hys (by simpa using hlt)
    | none =>
      rw [hfirst] at h
      simp only [Option.none_or, List.findSome?_cons, List.findSome?_nil] at h
      refine ⟨[], x :: xs, rfl, ?_, ?_⟩
      · cases hf : f ([], x :: xs) with
        | none => simp [hf] at h
        | some y => simpa [hf] using h
      · intro p' q' hpq' hlt
        cases p' with
        | nil => simp at hlt
        | cons y ys =>
          simp only [List.cons_append, List.cons.injEq] at hpq'
          obtain ⟨rfl, hys⟩ := hpq'
          have := List.findSome?_eq_none_iff.mp hfirst (ys, q') (mem_splitsDesc.mpr hys)
          simpa using this

/-- The part of `LogRegex` after the file name matches every text made of
".gem", a whitespace character, three digits, a whitespace character and a
newline-free tail. -/
theorem logTail_complete (pos : Nat) (c : Caps) (w₁ w₂ : Char) (d v : List Char)
    (hw₁ : inRanges [('\t', '\n'), ('\x0c', '\r'), (' ', ' ')] w₁ = true)
    (hw₂ : inRanges [('\t', '\n'), ('\x0c', '\r'), (' ', ' ')] w₂ = true)
    (hl : d.length = 3) (hd : ∀ x ∈ d, inRanges [('0', '9')] x = true)
    (hv : ∀ x ∈ v, x ≠ '\n') :
    (Regex.cat [.lit '.', .str "gem", space, .rep 3 digit, space, .group 4 (.star .dot),
      .eol]).run pos ('.' :: ("gem".toList ++ (w₁ :: (d ++ (w₂ :: v))))) c ≠ [] := by
  have hmem : (['.'] ++ ("gem".toList ++ ([w₁] ++ (d ++ ([w₂] ++ (v ++ ([] ++ [])))))), [],
      c.set 4 v) ∈
      (Regex.cat [.lit '.', .str "gem", space, .rep 3 digit, space, .group 4 (.star .dot),
        .eol]).run pos ('.' :: ("gem".toList ++ (w₁ :: (d ++ (w₂ :: v))))) c := by
    simp only [Regex.cat, run_seq_iff, run_lit_iff, run_str_iff, space, digit, run_cls_iff,
      run_rep_cls_iff, run_group_iff, run_star_dot_iff, run_eol_iff, run_empty_iff]
    refine ⟨['.'], _, _, _, ⟨rfl, rfl, rfl⟩,
      ⟨"gem".toList, _, _, _, ⟨rfl, rfl, rfl⟩,
        ⟨[w₁], _, _, _, ⟨w₁, hw₁, rfl, rfl, rfl⟩,
          ⟨d, _, _, _, ⟨hl, hd, rfl, rfl⟩,
            ⟨[w₂], _, _, _, ⟨w₂, hw₂, rfl, rfl, rfl⟩,
              ⟨v, _, [], _, ⟨c, ⟨by simp, hv, rfl⟩, rfl⟩,
                ⟨[], [], [], _, ⟨rfl, rfl, rfl, rfl⟩, ⟨rfl, rfl, rfl⟩, rfl⟩, rfl⟩,
              rfl⟩, rfl⟩, rfl⟩, rfl⟩, rfl⟩
  intro h
  rw [h] at hmem
  simp at hmem

/-- The pattern `LogRegex` cut before its third capturing group. -/
theorem LogRegex_split3 : LogRegex.re = Regex.cat (
    [ .bol, .str "<134>", .rep 4 digit, .lit '-', .rep 2 digit, .lit '-', .rep 2 digit,
      .lit 'T', .rep 2 digit, .lit ':', .rep 2 digit, .lit ':', .rep 2 digit, .lit 'Z',
      space, .str "cache-", .rep 3 (.cls [('a', 'z')]), .rep 4 digit,
      space, .str "downloads", .lit '[', digit.plus, .lit ']', .lit ':', space,
      .group 1 (.seq (.rep 3 (.seq (.repRange 1 3 digit) (.lit '.'))) (.repRange 1 3 digit)),
      space, .group 2 (.star .dot),
      space, .str "GMT", space, .lit '/', .alt (.str "staging") (.str "production"),
      .dot, .str "s3", .dot, .str "rubygems", .dot, .str "org/gems/" ] ++
    [ .group 3 (.star .dot), .lit '.', .str "gem", space, .rep 3 digit, space,
      .group 4 (.star .dot), .eol ]) := rfl

/-- The greedy file-name capture: in a newline-free text that `LogRegex`
matches, the captured tail holds no further ".gem", whitespace, three digits,
whitespace. -/
theorem search_LogRegex_tail_no_marker (s : List Char) (caps : Caps)
    (hs : ∀ x ∈ s, x ≠ '\n') (h : search LogRegex 0 s = some caps)
    (u v d : List Char) (w₁ w₂ : Char)
    (htail : caps[4]? = some (u ++ (".gem".toList ++ (w₁ :: (d ++ (w₂ :: v))))))
    (hw₁ : inRanges [('\t', '\n'), ('\x0c', '\r'), (' ', ' ')] w₁ = true)
    (hw₂ : inRanges [('\t', '\n'), ('\x0c', '\r'), (' ', ' ')] w₂ = true)
    (hl : d.length = 3) (hd : ∀ x ∈ d, inRanges [('0', '9')] x = true) : False := by
  rw [search_bol LogRegex _ LogRegex_re, ← LogRegex_re, LogRegex_split3, run_cat_append,
    List.head?_flatMap] at h
  simp only [Option.map_eq_some'] at h
  obtain ⟨T, hT, rfl⟩ := h
  obtain ⟨t₁, ht₁, hK⟩ := List.exists_of_findSome?_eq_some hT
  clear hT
  have hs₁ : s = t₁.1 ++ t₁.2.1 := run_text ht₁
  have hc₁ : t₁.2.2.length = 5 := by
    have := run_caps_length ht₁
    simpa [LogRegex] using this
  obtain ⟨w₀, s₁, c₁⟩ := t₁
  simp only at hs₁ hc₁ hK
  have hclean : ∀ x ∈ s₁, x ≠ '\n' := fun x hx => hs x (by rw [hs₁]; simp [hx])
  rw [List.head?_map, Regex.cat_cons, run_seq, run_group, run_star_dot_of_clean _ _ _ hclean,
    List.head?_flatMap, List.map_map, List.findSome?_map] at hK
  simp only [Option.map_eq_some'] at hK
  obtain ⟨t₂, ht₂, rfl⟩ := hK
  obtain ⟨p, q, hpq, hF, hmax⟩ := findSome?_splitsDesc _ _ _ ht₂
  clear ht₂
  simp only [Function.comp, List.head?_map, Option.map_eq_some'] at hF
  obtain ⟨⟨w₃, s₃, c₃⟩, ht₃, rfl⟩ := hF
  have hm₃ := List.mem_of_mem_head? ht₃
  have hq : q = w₃ ++ s₃ := run_text hm₃
  obtain ⟨b₄, tail, r₄, s₄, t₄, hb₄, htl, hm₄, rfl⟩ :=
    run_block_group (A := [.lit '.', .str "gem", space, .rep 3 digit, space]) hm₃ rfl rfl
  simp only [Regex.cat, run_seq_iff, run_eol_iff, run_empty_iff] at hm₄
  obtain ⟨_, _, _, _, ⟨-, rfl, rfl, rfl⟩, ⟨rfl, rfl, rfl⟩, rfl⟩ := hm₄
  obtain ⟨status, w₇, w₈, rfl, -, -, -, -⟩ := logPost_sound hb₄
  have htail' : tail = u ++ (".gem".toList ++ (w₁ :: (d ++ (w₂ :: v)))) := by
    have e : ((((c₁.set 3 p).set 4 tail).set 0 (w₀ ++ (p ++ (".gem".toList ++ [w₇] ++ status
        ++ [w₈] ++ (tail ++ ([] ++ [])))))))[4]? = some tail := by
      simp [List.getElem?_set, hc₁]
    simp only at htail
    rw [e] at htail
    exact Option.some.inj htail
  have hv : ∀ x ∈ v, x ≠ '\n' := by
    intro x hx
    apply hclean
    rw [← hpq, hq, htail']
    simp [hx]
  have hnone := hmax (p ++ (".gem".toList ++ [w₇] ++ status ++ [w₈] ++ u))
    (".gem".toList ++ (w₁ :: (d ++ (w₂ :: v))))
    (by rw [← hpq, hq, htail']; simp) (by simp)
  simp only [Function.comp, List.head?_map, Option.map_eq_none', List.head?_eq_none_iff] at hnone
  exact logTail_complete _ _ w₁ w₂ d v hw₁ hw₂ hl hd hv hnone

theorem inRanges_space_of_mem {x : Char} (h : x ∈ ['\t', '\n', '\x0c', '\r', ' ']) :
    inRanges [('\t', '\n'), ('\x0c', '\r'), (' ', ' ')] x = true := by
  simp only [List.mem_cons, List.mem_singleton, List.not_mem_nil, or_false] at h
  rcases h with rfl | rfl | rfl | rfl | rfl <;> decide

theorem inRanges_of_isDigit {x : Char} (h : x.isDigit = true) :
    inRanges [('0', '9')] x = true := by
  simp only [Char.isDigit, Bool.and_eq_true, decide_eq_true_eq, ge_iff_le] at h
  simp only [inRanges, List.any_cons, List.any_nil, Bool.or_false,
    Bool.and_eq_true, decide_eq_true_eq]
  have h0 : '0'.toNat = 48 := rfl
  have h9 : '9'.toNat = 57 := rfl
  rw [h0, h9]
  exact ⟨h.1, h.2⟩

/-- C17 (as stated, refuted): on a line whose tail holds the text ".gem 200 ",
the file name `LogRegex` extracts runs up to that later text: it is
"a-1.gem 200 curl x", which contains spaces and ".gem 200", and the tail is "y". -/
theorem LogRegex_fullName_runs_into_tail :
    LogRegex.findAllStringSubmatchHead
      "<134>2015-08-24T12:44:59Z cache-lhr6335 downloads[332933]: 54.72.251.121 Mon, 24 Aug 2015 12:44:59 GMT /production.s3.rubygems.org/gems/a-1.gem 200 curl x.gem 200 y" 4 =
      some ["<134>2015-08-24T12:44:59Z cache-lhr6335 downloads[332933]: 54.72.251.121 Mon, 24 Aug 2015 12:44:59 GMT /production.s3.rubygems.org/gems/a-1.gem 200 curl x.gem 200 y",
        "54.72.251.121", "Mon, 24 Aug 2015 12:44:59", "a-1.gem 200 curl x", "y"] ∧
    ' ' ∈ "a-1.gem 200 curl x".toList ∧
    ".gem 200".toList <:+: "a-1.gem 200 curl x".toList ∧
    parseLogLine
      "<134>2015-08-24T12:44:59Z cache-lhr6335 downloads[332933]: 54.72.251.121 Mon, 24 Aug 2015 12:44:59 GMT /production.s3.rubygems.org/gems/a-1.gem 200 curl x.gem 200 y" =
      .ok (⟨"a", "a-1.gem 200 curl x", "", "", "", ""⟩, none) := by
  decide!

/-- C17 (amended): for every line without a newline that `LogRegex` matches, the
extracted file name contains no newline, the line is a text ending in "/gems/"
followed by the file name, ".gem", a whitespace character, a 3-digit status, a
whitespace character and the tail, and the tail contains no text made of ".gem",
a whitespace character, three digits and a whitespace character: the file name
ends at the last such text of the line. -/
theorem LogRegex_fullName_greedy (line : String) (ps : List String)
    (hn : '\n' ∉ line.toList)
    (h : LogRegex.findAllStringSubmatchHead line 4 = some ps) :
    ∃ (ip date fullName tail pre status : String) (w₇ w₈ : Char),
      ps = [line, ip, date, fullName, tail] ∧ '\n' ∉ fullName.toList ∧
      line = pre ++ "/gems/" ++ fullName ++ ".gem" ++ String.singleton w₇ ++ status ++
        String.singleton w₈ ++ tail ∧
      status.length = 3 ∧ (∀ x ∈ status.toList, x.isDigit = true) ∧
      w₇ ∈ ['\t', '\n', '\x0c', '\r', ' '] ∧ w₈ ∈ ['\t', '\n', '\x0c', '\r', ' '] ∧
      ¬ ∃ (u d v : String) (w₁ w₂ : Char),
        tail = u ++ ".gem" ++ String.singleton w₁ ++ d ++ String.singleton w₂ ++ v ∧
        w₁ ∈ ['\t', '\n', '\x0c', '\r', ' '] ∧ w₂ ∈ ['\t', '\n', '\x0c', '\r', ' '] ∧
        d.length = 3 ∧ ∀ x ∈ d.toList, x.isDigit = true := by
  rw [find_eq _ _ _ (by decide)] at h
  simp only [Option.map_eq_some'] at h
  obtain ⟨caps, hc, rfl⟩ := h
  obtain ⟨ip, date, tok, tail, ts, host, pid, status, env, w₁, w₂, w₃, w₄, w₅, w₆, w₇, w₈,
    c₁, c₂, c₃, rfl, hs, henv, hl, hd, hws, hc₁, hc₂, hc₃, -, htok, -⟩ :=
    search_LogRegex_shape _ _ hc
  have e : ∀ x : Char, (String.singleton x).data = [x] := fun _ => rfl
  refine ⟨⟨ip⟩, ⟨date⟩, ⟨tok⟩, ⟨tail⟩,
    ⟨"<134>".toList ++ ts ++ [w₁] ++ host ++ [w₂] ++ "downloads[".toList ++ pid ++
      "]:".toList ++ [w₃] ++ ip ++ [w₄] ++ date ++ [w₅] ++ "GMT".toList ++ [w₆] ++
      "/".toList ++ env.toList ++ [c₁] ++ "s3".toList ++ [c₂] ++ "rubygems".toList ++
      [c₃] ++ "org".toList⟩, ⟨status⟩, w₇, w₈, by simp, fun hx => htok _ hx rfl, ?_, hl,
    fun x hx => inRanges_digit (hd x hx), inRanges_space (hws w₇ (by simp)),
    inRanges_space (hws w₈ (by simp)), ?_⟩
  · apply String.ext
    simp only [String.data_append, e]
    rw [show line.data = line.toList from rfl, hs]
    simp [String.toList, List.append_assoc]
  · rintro ⟨u, d, v, x₁, x₂, ht, hx₁, hx₂, hdl, hdd⟩
    refine search_LogRegex_tail_no_marker line.toList _ (fun x hx hxn => hn (hxn ▸ hx)) hc
      u.toList v.toList d.toList x₁ x₂ ?_ (inRanges_space_of_mem hx₁)
      (inRanges_space_of_mem hx₂) hdl (fun x hx => inRanges_of_isDigit (hdd x hx))
    have ht' := congrArg String.toList ht
    simp only [String.toList, String.data_append, e] at ht'
    simp only [List.getElem?_cons_succ, List.getElem?_cons_zero, Option.some.injEq]
    rw [ht']
    simp [String.toList, List.append_assoc]

/-- C17 (amended), at the line whose tail holds the text ".gem 200 ". -/
theorem LogRegex_fullName_greedy_witness :
    ∃ (ip date fullName tail pre status : String) (w₇ w₈ : Char),
      ["<134>2015-08-24T12:44:59Z cache-lhr6335 downloads[332933]: 54.72.251.121 Mon, 24 Aug 2015 12:44:59 GMT /production.s3.rubygems.org/gems/a-1.gem 200 curl x.gem 200 y",
        "54.72.251.121", "Mon, 24 Aug 2015 12:44:59", "a-1.gem 200 curl x", "y"] =
        ["<134>2015-08-24T12:44:59Z cache-lhr6335 downloads[332933]: 54.72.251.121 Mon, 24 Aug 2015 12:44:59 GMT /production.s3.rubygems.org/gems/a-1.gem 200 curl x.gem 200 y",
          ip, date, fullName, tail] ∧ '\n' ∉ fullName.toList ∧
      "<134>2015-08-24T12:44:59Z cache-lhr6335 downloads[332933]: 54.72.251.121 Mon, 24 Aug 2015 12:44:59 GMT /production.s3.rubygems.org/gems/a-1.gem 200 curl x.gem 200 y" =
        pre ++ "/gems/" ++ fullName ++ ".gem" ++ String.singleton w₇ ++ status ++
          String.singleton w₈ ++ tail ∧
      status.length = 3 ∧ (∀ x ∈ status.toList, x.isDigit = true) ∧
      w₇ ∈ ['\t', '\n', '\x0c', '\r', ' '] ∧ w₈ ∈ ['\t', '\n', '\x0c', '\r', ' '] ∧
      ¬ ∃ (u d v : String) (w₁ w₂ : Char),
        tail = u ++ ".gem" ++ String.singleton w₁ ++ d ++ String.singleton w₂ ++ v ∧
        w₁ ∈ ['\t', '\n', '\x0c', '\r', ' '] ∧ w₂ ∈ ['\t', '\n', '\x0c', '\r', ' '] ∧
        d.length = 3 ∧ ∀ x ∈ d.toList, x.isDigit = true :=
  LogRegex_fullName_greedy
    "<134>2015-08-24T12:44:59Z cache-lhr6335 downloads[332933]: 54.72.251.121 Mon, 24 Aug 2015 12:44:59 GMT /production.s3.rubygems.org/gems/a-1.gem 200 curl x.gem 200 y"
    _ (by decide) (by decide!)

end Logstat
